import Mathlib

/-!
# treasureHunt.cpp : board, placement, dig, views and the dig loop

A shallow embedding of the game core of `treasureHunt.cpp`: `placeChest`,
`dig`, `gameEnd`, `show`, `reveal`, and the placement and dig loops of `main`.

* A board (`int **`, `krows` rows of `kcols` ints) is a function
  `Fin krows → Fin kcols → Int`; the progress counters (`int chestsFound[5]`)
  are a function `Fin 5 → Int`.
* The C functions take `int` coordinates and index the arrays without any
  check of their own.  Every array access of the model therefore goes through
  `cellAt` / `setCell` / `counterAt` / `setCounter`, which yield `none` when
  the index falls outside the array.  `none` is not a return value of the C
  function: it marks an execution that leaves the arrays (undefined behaviour
  in C), for which the source defines no result.
* C `int` values are modelled by `Int`.  The sums of `placeChest`, which are
  computed from coordinates the human may choose freely, wrap at 32 bits
  (`wrap32`); the other values handled by the game (cells in `-15..15`,
  counters bounded by the 100 cells of a board) are far from the limits of a
  32-bit `int`.
* `printf` lines that matter to the game logic are recorded as `Msg` events;
  the two views are recorded as the lines of glyphs they print.
* Input (`scanf`) and random draws (`rand`) are parameters of the model: the
  accepted placement requests, the human dig targets and the AI dig targets.
-/

namespace TreasureHunt

/-! ## Data model -/

/-- Number of rows, `const int krows = 10`. -/
abbrev krows : Nat := 10

/-- Number of columns, `const int kcols = 10`. -/
abbrev kcols : Nat := 10

/-- Number of chests each side places, `const int chestAmounts = 5`. -/
abbrev chestAmounts : Nat := 5

/-- A game board: `krows` rows of `kcols` cells. -/
abbrev Board := Fin krows → Fin kcols → Int

/-- The array `int chestsFound[5]`. -/
abbrev Counters := Fin 5 → Int

/-- The board after `initializeBoard`: every cell is `0`. -/
def emptyBoard : Board := fun _ _ => 0

/-- The counters as initialised by `= {0}`. -/
def zeroCounters : Counters := fun _ => 0

/-- The coordinate pair `(r, c)` denotes a cell of the grid. -/
def inGrid (r c : Int) : Prop := 0 ≤ r ∧ r < krows ∧ 0 ≤ c ∧ c < kcols

instance (r c : Int) : Decidable (inGrid r c) := by
  unfold inGrid; infer_instance

/-- Row index of an `int` known to lie in `0..9`. -/
def rowIdx (r : Int) : Fin krows := ⟨r.toNat % krows, Nat.mod_lt _ (by decide)⟩

/-- Column index of an `int` known to lie in `0..9`. -/
def colIdx (c : Int) : Fin kcols := ⟨c.toNat % kcols, Nat.mod_lt _ (by decide)⟩

/-- Read of `board[r][c]`; `none` when the access leaves the grid. -/
def cellAt (b : Board) (r c : Int) : Option Int :=
  if inGrid r c then some (b (rowIdx r) (colIdx c)) else none

/-- Board with the single cell `(i, j)` overwritten by `v`. -/
def Board.set (b : Board) (i : Fin krows) (j : Fin kcols) (v : Int) : Board :=
  fun i' j' => if i' = i ∧ j' = j then v else b i' j'

/-- Write `board[r][c] = v`; `none` when the access leaves the grid. -/
def setCell (b : Board) (r c : Int) (v : Int) : Option Board :=
  if inGrid r c then some (b.set (rowIdx r) (colIdx c) v) else none

/-- Counter index of an `int` known to lie in `0..4`. -/
def ctrIdx (i : Int) : Fin 5 := ⟨i.toNat % 5, Nat.mod_lt _ (by decide)⟩

/-- Read of `chestsFound[i]`; `none` when `i` is not in `0..4`. -/
def counterAt (cf : Counters) (i : Int) : Option Int :=
  if 0 ≤ i ∧ i < 5 then some (cf (ctrIdx i)) else none

/-- Counters with the single entry `k` overwritten by `v`. -/
def Counters.set (cf : Counters) (k : Fin 5) (v : Int) : Counters :=
  fun k1 => if k1 = k then v else cf k1

/-- Write `chestsFound[i] = v`; `none` when `i` is not in `0..4`. -/
def setCounter (cf : Counters) (i : Int) (v : Int) : Option Counters :=
  if 0 ≤ i ∧ i < 5 then some (cf.set (ctrIdx i) v) else none

/-! ## placeChest -/

/-- The validity loop of `placeChest`,
`for (...) if (array[r][c] != 0) return false;`, run for `k` iterations from
cell `(r, c)` with step `(dr, dc)`: `(0, 1)` in the horizontal case, `(1, 0)`
in the vertical one.  `some false` is the early `return false`. -/
def checkCells (b : Board) (dr dc : Int) : Int → Int → Nat → Option Bool
  | _, _, 0 => some true
  | r, c, k + 1 =>
    match cellAt b r c with
    | none => none
    | some v => if v ≠ 0 then some false else checkCells b dr dc (r + dr) (c + dc) k

/-- The placing loop of `placeChest`, `for (...) array[r][c] = x;`, run for
`k` iterations from cell `(r, c)` with step `(dr, dc)`. -/
def writeCells (dr dc x : Int) : Board → Int → Int → Nat → Option Board
  | b, _, _, 0 => some b
  | b, r, c, k + 1 =>
    match setCell b r c x with
    | none => none
    | some b1 => writeCells dr dc x b1 (r + dr) (c + dc) k

/-- The value a 32-bit `int` computation yields for the exact result `z`:
`z` brought into the range `-2147483648 .. 2147483647` by two's-complement
wrap-around. -/
def wrap32 (z : Int) : Int := (z + 2147483648) % 4294967296 - 2147483648

/-- The function `placeChest(array, offsetRow, offsetCol, x, rowOrCol)`.
The result is the returned `bool` together with the board left behind.
`n` and the sums `offsetCol + n`, `offsetRow + n` are `int` values and wrap
at 32 bits.  A loop `for (j = o; j < last; j++)` runs `(last - o).toNat`
times. -/
def placeChest (array : Board) (offsetRow offsetCol x rowOrCol : Int) :
    Option (Bool × Board) :=
  let n := wrap32 (16 - x)
  if rowOrCol = 0 then
    let last := wrap32 (offsetCol + n)
    if last > kcols then some (false, array)
    else
      match checkCells array 0 1 offsetRow offsetCol (last - offsetCol).toNat with
      | none => none
      | some false => some (false, array)
      | some true =>
        match writeCells 0 1 x array offsetRow offsetCol (last - offsetCol).toNat with
        | none => none
        | some a1 => some (true, a1)
  else if rowOrCol = 1 then
    let last := wrap32 (offsetRow + n)
    if last > krows then some (false, array)
    else
      match checkCells array 1 0 offsetRow offsetCol (last - offsetRow).toNat with
      | none => none
      | some false => some (false, array)
      | some true =>
        match writeCells 1 0 x array offsetRow offsetCol (last - offsetRow).toNat with
        | none => none
        | some a1 => some (true, a1)
  else some (true, array)

/-! ## dig -/

/-- The lines `dig` can print. -/
inductive Msg where
  /-- The line "You've already dug here!". -/
  | alreadyDug : Msg
  /-- The line "All parts of a `size`-sized chest have been dug up!". -/
  | chestDone (size : Int) : Msg
  deriving DecidableEq, Repr

/-- What a call of `dig` leaves behind: the returned `int`, the board, the
counters and the lines printed. -/
structure DigResult where
  ret : Int
  board : Board
  chestsFound : Counters
  out : List Msg

/-- The function `dig(board, targetRow, targetCol, chestsFound)`. -/
def dig (board : Board) (targetRow targetCol : Int) (chestsFound : Counters) :
    Option DigResult :=
  match cellAt board targetRow targetCol with
  | none => none
  | some v =>
    if v = -1 then some ⟨0, board, chestsFound, [Msg.alreadyDug]⟩
    else if v > 0 then
      let chestCode := v
      let chestIndex := chestCode - 11
      let chestSize := 16 - chestCode
      match setCell board targetRow targetCol (-chestCode) with
      | none => none
      | some b1 =>
        match counterAt chestsFound chestIndex with
        | none => none
        | some old =>
          match setCounter chestsFound chestIndex (old + 1) with
          | none => none
          | some cf1 =>
            some ⟨0, b1, cf1,
              if old + 1 = chestSize then [Msg.chestDone chestSize] else []⟩
    else if v = 0 then
      match setCell board targetRow targetCol (-1) with
      | none => none
      | some b1 => some ⟨0, b1, chestsFound, []⟩
    else some ⟨0, board, chestsFound, []⟩

/-! ## The two phases of `main` -/

/-- One request of the placement phase, as `userInput` and `aiInput` hand it
to `placeChestChecker`: chest type, orientation and origin. -/
structure Placement where
  chestType : Int
  horiVert : Int
  rowLocation : Int
  colLocation : Int
  deriving DecidableEq, Repr

/-- The requests the input routines let through: a chest type in `11..15`
and an orientation `0` or `1`. -/
def Placement.wellFormed (p : Placement) : Prop :=
  11 ≤ p.chestType ∧ p.chestType ≤ 15 ∧ (p.horiVert = 0 ∨ p.horiVert = 1)

instance (p : Placement) : Decidable p.wellFormed := by
  unfold Placement.wellFormed; infer_instance

/-- The request has its origin inside the grid. -/
def Placement.onBoard (p : Placement) : Bool :=
  decide (inGrid p.rowLocation p.colLocation)

/-- The requests of a list that put a chest on the board when they are
accepted: those with an origin inside the grid.  (A well-formed request that
is accepted with an origin outside the grid is one whose far end
`offsetCol + n` or `offsetRow + n` wrapped around the `int` range: the bounds
test and both loops are skipped and `true` is returned with nothing
placed.) -/
def placedRequests (ps : List Placement) : List Placement :=
  ps.filter Placement.onBoard

/-- The function `placeChestChecker`: the answer of `placeChest`, passed on
(the success line it prints is not recorded). -/
def placeChestChecker (board : Board) (rowLocation colLocation chestType horiVert : Int) :
    Option (Bool × Board) :=
  placeChest board rowLocation colLocation chestType horiVert

/-- The placement loop of `main`, reduced to its successful requests: each
request of the list is placed in turn on the board left by the previous one.
A request that `placeChest` refuses returns `false` with the board as it was
and is asked again by `userInput` / `aiInput`, so only accepted requests move
the board; a list with a refused or undefined request yields `none`. -/
def placementPhase : Board → List Placement → Option Board
  | b, [] => some b
  | b, p :: ps =>
    match placeChestChecker b p.rowLocation p.colLocation p.chestType p.horiVert with
    | some (true, b1) => placementPhase b1 ps
    | _ => none

/-- The retry loop of `aiInput`,
`while (!placeChestChecker(aiBoard, rowLocation, colLocation, chestType, horiVert))`,
for the chest type and the orientation drawn before the loop: the request is
made at the `k`-th pair of coordinates drawn, and made again at the next pair
as long as it is refused; the chest type and the orientation are not drawn
again.  The loop of the source has no bound: `fuel` bounds the number of
requests made, and `none` is a run that has achieved no placement within
them (or has left the arrays). -/
def aiInput (draws : Nat → Int × Int) (chestType horiVert : Int) :
    Board → Nat → Nat → Option Board
  | _, _, 0 => none
  | board, k, fuel + 1 =>
    match placeChestChecker board (draws k).1 (draws k).2 chestType horiVert with
    | none => none
    | some (true, b1) => some b1
    | some (false, b1) => aiInput draws chestType horiVert b1 (k + 1) fuel

/-- A run of calls of `dig` on one board with its counters, at the listed
targets in order: the final board and counters and all lines printed. -/
def digSeq : Board → Counters → List (Int × Int) → Option (Board × Counters × List Msg)
  | b, cf, [] => some (b, cf, [])
  | b, cf, q :: qs =>
    match dig b q.1 q.2 cf with
    | none => none
    | some res =>
      match digSeq res.board res.chestsFound qs with
      | none => none
      | some (b2, cf2, out) => some (b2, cf2, res.out ++ out)

/-! ## Counting cells -/

/-- Number of cells of the board that hold the value `v`. -/
def countCells (b : Board) (v : Int) : Nat :=
  (Finset.univ.filter (fun p : Fin krows × Fin kcols => b p.1 p.2 = v)).card

/-- The cell values the game uses: `0`, `-1`, `11..15` and `-15..-11`. -/
def validCell (v : Int) : Prop :=
  v = 0 ∨ v = -1 ∨ (11 ≤ v ∧ v ≤ 15) ∨ (-15 ≤ v ∧ v ≤ -11)

instance (v : Int) : Decidable (validCell v) := by
  unfold validCell; infer_instance

/-- Every cell of the board holds a valid cell value. -/
def validBoard (b : Board) : Prop := ∀ i j, validCell (b i j)

/-- Every counter equals the number of dug cells of its chest type:
`chestsFound[t - 11]` is the number of cells holding `-t`, for `t` in
`11..15`. -/
def countersMatch (b : Board) (cf : Counters) : Prop :=
  ∀ t : Int, 11 ≤ t ∧ t ≤ 15 → cf (ctrIdx (t - 11)) = (countCells b (-t) : Int)

/-- The board carries one chest of each type: for `t` in `11..15` the cells
holding `t` or `-t` are `16 - t` in number. -/
def oneChestEach (b : Board) : Prop :=
  ∀ t : Int, 11 ≤ t ∧ t ≤ 15 → countCells b t + countCells b (-t) = (16 - t).toNat

/-- The cell `(r1, c1)` belongs to the span of `16 - x` cells that starts at
`(row, col)` and runs rightward for orientation `0`, downward otherwise. -/
def inSpan (row col x o : Int) (r1 c1 : Int) : Prop :=
  if o = 0 then r1 = row ∧ col ≤ c1 ∧ c1 < col + (16 - x)
  else c1 = col ∧ row ≤ r1 ∧ r1 < row + (16 - x)

instance (row col x o r1 c1 : Int) : Decidable (inSpan row col x o r1 c1) := by
  unfold inSpan; infer_instance

/-! ## gameEnd -/

/-- The function `gameEnd(board)`: the scan over all rows and columns, which
answers `false` at the first cell with a positive value. -/
def gameEnd (board : Board) : Bool :=
  (List.finRange krows).all fun i =>
    (List.finRange kcols).all fun j => !decide (board i j > 0)

/-! ## show and reveal -/

/-- The inner loop shared by `show` and `reveal`,
`for (j = 0; j < col; j++) printf("%5c", ...)`, run for `k` iterations from
column `j` of row `i`.  Every `printf("%5c", ch)` is recorded as the
character `ch` (the padding to width 5 is the same for every cell); `glyph`
gives what the body prints for a cell value, one character or nothing. -/
def renderRow (glyph : Int → List Char) (board : Board) (i : Nat) :
    Nat → Nat → Option (List Char)
  | _, 0 => some []
  | j, k + 1 =>
    match cellAt board (i : Int) (j : Int) with
    | none => none
    | some v =>
      match renderRow glyph board i (j + 1) k with
      | none => none
      | some rest => some (glyph v ++ rest)

/-- The outer loop shared by `show` and `reveal`,
`for (i = 0; i < row; i++) { ...; printf("\n"); }`, run for `k` iterations
from row `i`: the printed lines, in order. -/
def renderRows (glyph : Int → List Char) (board : Board) (col : Nat) :
    Nat → Nat → Option (List (List Char))
  | _, 0 => some []
  | i, k + 1 =>
    match renderRow glyph board i 0 col with
    | none => none
    | some line =>
      match renderRows glyph board col (i + 1) k with
      | none => none
      | some rest => some (line :: rest)

/-- What the body of `show` prints for a cell value. -/
def showGlyph (v : Int) : List Char :=
  if v = 0 then ['-']
  else if v = -1 then ['X']
  else if v < 0 then ['@']
  else ['-']

/-- What the body of `reveal` prints for a cell value; a value outside the
table prints nothing. -/
def revealGlyph (v : Int) : List Char :=
  if v = 0 then ['-']
  else if v = -1 then ['X']
  else if v > 0 then
    if v = 11 then ['a']
    else if v = 12 then ['b']
    else if v = 13 then ['c']
    else if v = 14 then ['d']
    else if v = 15 then ['e']
    else []
  else
    if v = -11 then ['A']
    else if v = -12 then ['B']
    else if v = -13 then ['C']
    else if v = -14 then ['D']
    else if v = -15 then ['E']
    else []

/-- The function `show(board, row, col)`, named `showBoard` here: the lines
it prints (it always returns `0`). -/
def showBoard (board : Board) (row col : Int) : Option (List (List Char)) :=
  renderRows showGlyph board col.toNat 0 row.toNat

/-- The function `reveal(board, row, col)`: the lines it prints (it always
returns `0`). -/
def reveal (board : Board) (row col : Int) : Option (List (List Char)) :=
  renderRows revealGlyph board col.toNat 0 row.toNat

/-- The fog glyph as the specification words it: `X` for `-1`, `@` for a
value below `-1`, `-` otherwise. -/
def specFogGlyph (v : Int) : Char :=
  if v = -1 then 'X' else if v < -1 then '@' else '-'

/-- The full-reveal glyph as the specification words it: `-` for `0`, `X`
for `-1`, `a..e` for `11..15`, `A..E` for `-11..-15`. -/
def specRevealGlyph (v : Int) : Char :=
  if v = 0 then '-'
  else if v = -1 then 'X'
  else if v = 11 then 'a'
  else if v = 12 then 'b'
  else if v = 13 then 'c'
  else if v = 14 then 'd'
  else if v = 15 then 'e'
  else if v = -11 then 'A'
  else if v = -12 then 'B'
  else if v = -13 then 'C'
  else if v = -14 then 'D'
  else 'E'

/-- The rendering the specification describes: one glyph per cell, row by
row, each row from left to right. -/
def glyphGrid (gc : Int → Char) (b : Board) : List (List Char) :=
  (List.finRange krows).map fun i => (List.finRange kcols).map fun j => gc (b i j)

/-- The cell value a full-reveal glyph stands for. -/
def cellOfGlyph (c : Char) : Int :=
  if c = '-' then 0
  else if c = 'X' then -1
  else if c = 'a' then 11
  else if c = 'b' then 12
  else if c = 'c' then 13
  else if c = 'd' then 14
  else if c = 'e' then 15
  else if c = 'A' then -11
  else if c = 'B' then -12
  else if c = 'C' then -13
  else if c = 'D' then -14
  else -15

/-! ## The dig loop of `main` -/

/-- The four globals of the program: both boards and both counter arrays. -/
structure Game where
  userBoard : Board
  aiBoard : Board
  userChestsFound : Counters
  aiChestsFound : Counters

/-- Who is announced after the dig loop. -/
inductive Winner where
  /-- The line "All treasures found! AI wins!". -/
  | AI : Winner
  /-- The line "All treasures found! User wins!". -/
  | User : Winner
  deriving DecidableEq, Repr

/-- The body of the dig loop of `main` for the human target `h` (accepted by
the input loop) and the AI target `a` (drawn with `rand`): the human digs on
the AI board, and when `gameEnd(aiBoard)` is then false the AI digs on the
user board.  The result is the state left behind and the list of targets the
AI dug in this round. -/
def digRound (g : Game) (h a : Int × Int) : Option (Game × List (Int × Int)) :=
  match dig g.aiBoard h.1 h.2 g.userChestsFound with
  | none => none
  | some r1 =>
    if !gameEnd r1.board then
      match dig g.userBoard a.1 a.2 g.aiChestsFound with
      | none => none
      | some r2 => some (⟨r2.board, r1.board, r1.chestsFound, r2.chestsFound⟩, [a])
    else some (⟨g.userBoard, r1.board, r1.chestsFound, g.aiChestsFound⟩, [])

/-- The loop `while (!gameEnd(userBoard) && !gameEnd(aiBoard)) { ... }` of
`main`, fed with the human targets `hs` in the order they are accepted and
with the AI targets `ai k`, `ai (k + 1)`, ... in the order `rand` yields them
(a target is consumed only in a round in which the AI digs).  `some g` is the
state at loop exit; `none` means that the loop does not exit on these inputs
(it waits for a further human target) or that a dig left the board. -/
def digLoop (ai : Nat → Int × Int) : Game → List (Int × Int) → Nat → Option Game
  | g, [], _ => if !gameEnd g.userBoard && !gameEnd g.aiBoard then none else some g
  | g, h :: hs, k =>
    if !gameEnd g.userBoard && !gameEnd g.aiBoard then
      match digRound g h (ai k) with
      | none => none
      | some (g1, dug) => digLoop ai g1 hs (k + dug.length)
    else some g

/-- The `j` targets the AI draws from position `k` of its sequence on. -/
def aiTargets (ai : Nat → Int × Int) : Nat → Nat → List (Int × Int)
  | _, 0 => []
  | k, j + 1 => ai k :: aiTargets ai (k + 1) j

/-- The announcement after the loop: `if (gameEnd(userBoard))` the AI wins,
else the user wins. -/
def announce (g : Game) : Winner :=
  if gameEnd g.userBoard then Winner.AI else Winner.User

/-! ## Interleaved placements and digs on one board -/

/-- One call on a board with its counters: `placeChest` or `dig`. -/
inductive Op where
  /-- The call `placeChest(board, offsetRow, offsetCol, x, rowOrCol)`. -/
  | place (offsetRow offsetCol x rowOrCol : Int) : Op
  /-- The call `dig(board, targetRow, targetCol, chestsFound)`. -/
  | dig (targetRow targetCol : Int) : Op
  deriving DecidableEq, Repr

/-- The calls the game makes: an origin or target inside the grid, a chest
type in `11..15`, an orientation `0` or `1`. -/
def Op.wellFormed : Op → Prop
  | Op.place offsetRow offsetCol x rowOrCol =>
    inGrid offsetRow offsetCol ∧ 11 ≤ x ∧ x ≤ 15 ∧ (rowOrCol = 0 ∨ rowOrCol = 1)
  | Op.dig targetRow targetCol => inGrid targetRow targetCol

/-- The effect of one call on board and counters (the returned value of the
call is dropped: a refused placement leaves the board as it was). -/
def applyOp (b : Board) (cf : Counters) : Op → Option (Board × Counters)
  | Op.place offsetRow offsetCol x rowOrCol =>
    match placeChest b offsetRow offsetCol x rowOrCol with
    | none => none
    | some r => some (r.2, cf)
  | Op.dig targetRow targetCol =>
    match dig b targetRow targetCol cf with
    | none => none
    | some r => some (r.board, r.chestsFound)

/-- A sequence of calls, applied in order. -/
def runOps : Board → Counters → List Op → Option (Board × Counters)
  | b, cf, [] => some (b, cf)
  | b, cf, op :: ops =>
    match applyOp b cf op with
    | none => none
    | some s => runOps s.1 s.2 ops

/-- Number of cells the chests of a list of placements have together. -/
def chestCellsOf (ps : List Placement) : Nat :=
  (ps.map fun p => (16 - p.chestType).toNat).sum

/-- The ways a cell may move from value `v` to value `w` in one call: it
stays as it is, an empty cell receives a chest code `t` in `11..15`, an empty
cell is dug (`0` to `-1`), or an undug chest cell is dug (`t` to `-t`). -/
def cellStep (v w : Int) : Prop :=
  w = v ∨ (v = 0 ∧ 11 ≤ w ∧ w ≤ 15) ∨ (v = 0 ∧ w = -1) ∨ (11 ≤ v ∧ v ≤ 15 ∧ w = -v)

instance (v w : Int) : Decidable (cellStep v w) := by
  unfold cellStep; infer_instance

/-! ## The input check of the dig loop -/

/-- The condition of the input loop of the dig phase in `main`,
`status != 2 || digRow < 0 || digRow > krows || digCol < 0 || digCol > kcols`:
while it is true the pair is refused and asked again; when it is false the
pair is passed to `dig`.  `status` is the value returned by `scanf`. -/
def digInputRefused (status digRow digCol : Int) : Bool :=
  status != 2 || decide (digRow < 0) || decide (digRow > krows) ||
    decide (digCol < 0) || decide (digCol > kcols)

/-! ## Basic facts on cell access -/

theorem rowIdx_cast (i : Fin krows) : rowIdx (i : Int) = i := by
  apply Fin.ext
  have := i.isLt
  simp only [rowIdx, Int.toNat_ofNat]
  exact Nat.mod_eq_of_lt this

theorem colIdx_cast (j : Fin kcols) : colIdx (j : Int) = j := by
  apply Fin.ext
  have := j.isLt
  simp only [colIdx, Int.toNat_ofNat]
  exact Nat.mod_eq_of_lt this

theorem rowIdx_eq_iff {r r1 : Int} (h : 0 ≤ r ∧ r < krows) (h1 : 0 ≤ r1 ∧ r1 < krows) :
    rowIdx r1 = rowIdx r ↔ r1 = r := by
  simp only [krows, Nat.cast_ofNat] at h h1
  constructor
  · intro e
    have hv : r1.toNat % 10 = r.toNat % 10 := congrArg Fin.val e
    omega
  · intro e; rw [e]

theorem colIdx_eq_iff {c c1 : Int} (h : 0 ≤ c ∧ c < kcols) (h1 : 0 ≤ c1 ∧ c1 < kcols) :
    colIdx c1 = colIdx c ↔ c1 = c := by
  simp only [kcols, Nat.cast_ofNat] at h h1
  constructor
  · intro e
    have hv : c1.toNat % 10 = c.toNat % 10 := congrArg Fin.val e
    omega
  · intro e; rw [e]

theorem inGrid_cast (i : Fin krows) (j : Fin kcols) : inGrid (i : Int) (j : Int) := by
  have hi : (i : Nat) < 10 := i.isLt
  have hj : (j : Nat) < 10 := j.isLt
  refine ⟨?_, ?_, ?_, ?_⟩ <;> simp only [krows, kcols, Nat.cast_ofNat] <;> omega

theorem inGrid_iff {r c : Int} : inGrid r c ↔ 0 ≤ r ∧ r < 10 ∧ 0 ≤ c ∧ c < 10 := by
  simp only [inGrid, krows, kcols, Nat.cast_ofNat]

theorem cellAt_cast (b : Board) (i : Fin krows) (j : Fin kcols) :
    cellAt b (i : Int) (j : Int) = some (b i j) := by
  simp [cellAt, inGrid_cast, rowIdx_cast, colIdx_cast]

theorem cellAt_of_inGrid (b : Board) {r c : Int} (h : inGrid r c) :
    cellAt b r c = some (b (rowIdx r) (colIdx c)) := by
  simp [cellAt, h]

theorem cellAt_eq_none (b : Board) {r c : Int} (h : ¬ inGrid r c) : cellAt b r c = none := by
  simp [cellAt, h]

theorem inGrid_of_cellAt {b : Board} {r c v : Int} (h : cellAt b r c = some v) :
    inGrid r c := by
  by_contra hn
  rw [cellAt_eq_none b hn] at h
  exact Option.noConfusion h

theorem setCell_of_inGrid (b : Board) {r c : Int} (v : Int) (h : inGrid r c) :
    setCell b r c v = some (b.set (rowIdx r) (colIdx c) v) := by
  simp [setCell, h]

theorem setCell_eq_none (b : Board) {r c : Int} (v : Int) (h : ¬ inGrid r c) :
    setCell b r c v = none := by
  simp [setCell, h]

/-- Reading a cell after a single write. -/
theorem cellAt_set (b : Board) {r c r1 c1 : Int} (v : Int) (h : inGrid r c) :
    cellAt (b.set (rowIdx r) (colIdx c) v) r1 c1
      = if r1 = r ∧ c1 = c then some v else cellAt b r1 c1 := by
  by_cases h1 : inGrid r1 c1
  · rw [cellAt_of_inGrid _ h1, cellAt_of_inGrid _ h1]
    have hr := @rowIdx_eq_iff r r1 ⟨h.1, h.2.1⟩ ⟨h1.1, h1.2.1⟩
    have hc := @colIdx_eq_iff c c1 ⟨h.2.2.1, h.2.2.2⟩ ⟨h1.2.2.1, h1.2.2.2⟩
    simp only [Board.set, hr, hc]
    split <;> rfl
  · rw [cellAt_eq_none _ h1, cellAt_eq_none _ h1]
    have : ¬ (r1 = r ∧ c1 = c) := by
      rintro ⟨e1, e2⟩
      exact h1 (e1 ▸ e2 ▸ h)
    simp [this]

/-- Two boards with the same cells are equal. -/
theorem board_ext {b1 b2 : Board}
    (h : ∀ r c : Int, inGrid r c → cellAt b1 r c = cellAt b2 r c) : b1 = b2 := by
  funext i j
  have := h i j (inGrid_cast i j)
  rw [cellAt_cast, cellAt_cast] at this
  exact Option.some.inj this

/-- A single write changes the count of a value by the written cell only. -/
theorem countCells_set (b : Board) (i : Fin krows) (j : Fin kcols) (w v : Int) :
    countCells (b.set i j w) v + (if b i j = v then 1 else 0)
      = countCells b v + (if w = v then 1 else 0) := by
  unfold countCells
  rw [Finset.card_filter, Finset.card_filter]
  rw [← Finset.add_sum_erase Finset.univ _ (Finset.mem_univ (i, j))]
  rw [← Finset.add_sum_erase Finset.univ
    (fun p : Fin krows × Fin kcols => if b p.1 p.2 = v then 1 else 0) (Finset.mem_univ (i, j))]
  have hrest : ∑ p ∈ Finset.univ.erase (i, j), (if (b.set i j w) p.1 p.2 = v then 1 else 0)
      = ∑ p ∈ Finset.univ.erase (i, j), (if b p.1 p.2 = v then 1 else 0) := by
    apply Finset.sum_congr rfl
    intro p hp
    have hne : p ≠ (i, j) := Finset.ne_of_mem_erase hp
    have : ¬ (p.1 = i ∧ p.2 = j) := by
      rintro ⟨e1, e2⟩
      exact hne (Prod.ext e1 e2)
    simp [Board.set, this]
  rw [hrest]
  simp only [Board.set, and_self, if_true]
  omega


/-! ## The two loops of placeChest -/

/-- The validity loop answers `true` when every visited cell is `0`. -/
theorem checkCells_true (b : Board) (dr dc : Int) :
    ∀ (k : Nat) (r c : Int),
      (∀ i : Nat, i < k → cellAt b (r + i * dr) (c + i * dc) = some 0) →
      checkCells b dr dc r c k = some true := by
  intro k
  induction k with
  | zero => intro r c _; rfl
  | succ k ih =>
    intro r c h
    have h0 := h 0 (Nat.succ_pos k)
    simp only [Nat.cast_zero, zero_mul, add_zero] at h0
    simp only [checkCells, h0, ne_eq, not_true_eq_false, if_false]
    apply ih
    intro i hi
    have := h (i + 1) (Nat.succ_lt_succ hi)
    rw [← this]
    congr 1 <;> push_cast <;> ring

/-- When the validity loop answers `true`, every visited cell is `0` (and so
lies in the grid). -/
theorem checkCells_true_inv (b : Board) (dr dc : Int) :
    ∀ (k : Nat) (r c : Int), checkCells b dr dc r c k = some true →
      ∀ i : Nat, i < k → cellAt b (r + i * dr) (c + i * dc) = some 0 := by
  intro k
  induction k with
  | zero => intro r c _ i hi; exact absurd hi (Nat.not_lt_zero i)
  | succ k ih =>
    intro r c h i hi
    simp only [checkCells] at h
    cases hc : cellAt b r c with
    | none => rw [hc] at h; exact Option.noConfusion h
    | some v =>
      rw [hc] at h
      by_cases hv : v = 0
      · subst hv
        simp only [ne_eq, not_true_eq_false, if_false] at h
        cases i with
        | zero => simpa using hc
        | succ i =>
          have := ih (r + dr) (c + dc) h i (Nat.lt_of_succ_lt_succ hi)
          rw [← this]
          congr 1 <;> push_cast <;> ring
      · simp only [ne_eq, hv, not_false_eq_true, if_true] at h
        exact absurd (Option.some.inj h) (by decide)

/-- The validity loop answers `false` when all visited cells lie in the grid
and one of them is not `0`. -/
theorem checkCells_false (b : Board) (dr dc : Int) :
    ∀ (k : Nat) (r c : Int),
      (∀ i : Nat, i < k → inGrid (r + i * dr) (c + i * dc)) →
      (∃ i : Nat, i < k ∧ cellAt b (r + i * dr) (c + i * dc) ≠ some 0) →
      checkCells b dr dc r c k = some false := by
  intro k
  induction k with
  | zero => intro r c _ ⟨i, hi, _⟩; exact absurd hi (Nat.not_lt_zero i)
  | succ k ih =>
    intro r c hg ⟨i, hi, hne⟩
    have g0 := hg 0 (Nat.succ_pos k)
    simp only [Nat.cast_zero, zero_mul, add_zero] at g0
    simp only [checkCells, cellAt_of_inGrid b g0]
    by_cases hv : b (rowIdx r) (colIdx c) = 0
    · simp only [hv, ne_eq, not_true_eq_false, if_false]
      apply ih
      · intro i1 hi1
        have := hg (i1 + 1) (Nat.succ_lt_succ hi1)
        have e1 : r + dr + (i1 : Int) * dr = r + ((i1 + 1 : Nat) : Int) * dr := by
          push_cast; ring
        have e2 : c + dc + (i1 : Int) * dc = c + ((i1 + 1 : Nat) : Int) * dc := by
          push_cast; ring
        rw [e1, e2]; exact this
      · cases i with
        | zero =>
          exfalso
          apply hne
          simp only [Nat.cast_zero, zero_mul, add_zero]
          rw [cellAt_of_inGrid b g0, hv]
        | succ i =>
          refine ⟨i, Nat.lt_of_succ_lt_succ hi, ?_⟩
          have e1 : r + dr + (i : Int) * dr = r + ((i + 1 : Nat) : Int) * dr := by
            push_cast; ring
          have e2 : c + dc + (i : Int) * dc = c + ((i + 1 : Nat) : Int) * dc := by
            push_cast; ring
          rw [e1, e2]; exact hne
    · simp only [ne_eq, hv, not_false_eq_true, if_true]

/-- The placing loop, run over cells of the grid, succeeds; it leaves `x` in
every visited cell and changes no other cell. -/
theorem writeCells_spec (dr dc x : Int) :
    ∀ (k : Nat) (b : Board) (r c : Int),
      (∀ i : Nat, i < k → inGrid (r + i * dr) (c + i * dc)) →
      ∃ b1, writeCells dr dc x b r c k = some b1 ∧
        (∀ i : Nat, i < k → cellAt b1 (r + i * dr) (c + i * dc) = some x) ∧
        (∀ r1 c1 : Int, (∀ i : Nat, i < k → ¬ (r1 = r + i * dr ∧ c1 = c + i * dc)) →
          cellAt b1 r1 c1 = cellAt b r1 c1) := by
  intro k
  induction k with
  | zero =>
    intro b r c _
    exact ⟨b, rfl, fun i hi => absurd hi (Nat.not_lt_zero i), fun _ _ _ => rfl⟩
  | succ k ih =>
    intro b r c hg
    have g0 := hg 0 (Nat.succ_pos k)
    simp only [Nat.cast_zero, zero_mul, add_zero] at g0
    have hg1 : ∀ i : Nat, i < k → inGrid (r + dr + i * dr) (c + dc + i * dc) := by
      intro i hi
      have := hg (i + 1) (Nat.succ_lt_succ hi)
      have e1 : r + dr + (i : Int) * dr = r + ((i + 1 : Nat) : Int) * dr := by
        push_cast; ring
      have e2 : c + dc + (i : Int) * dc = c + ((i + 1 : Nat) : Int) * dc := by
        push_cast; ring
      rw [e1, e2]; exact this
    obtain ⟨b1, hw, hin, hout⟩ := ih (b.set (rowIdx r) (colIdx c) x) (r + dr) (c + dc) hg1
    refine ⟨b1, ?_, ?_, ?_⟩
    · simp only [writeCells, setCell_of_inGrid b x g0]
      exact hw
    · intro i hi
      cases i with
      | zero =>
        simp only [Nat.cast_zero, zero_mul, add_zero]
        by_cases hlater : ∃ i1 : Nat, i1 < k ∧ r = r + dr + i1 * dr ∧ c = c + dc + i1 * dc
        · obtain ⟨i1, hi1, e1, e2⟩ := hlater
          have := hin i1 hi1
          rw [← e1, ← e2] at this
          exact this
        · have := hout r c (fun i1 hi1 hh => hlater ⟨i1, hi1, hh⟩)
          rw [this, cellAt_set b x g0]
          simp
      | succ i =>
        have := hin i (Nat.lt_of_succ_lt_succ hi)
        have e1 : r + dr + (i : Int) * dr = r + ((i + 1 : Nat) : Int) * dr := by
          push_cast; ring
        have e2 : c + dc + (i : Int) * dc = c + ((i + 1 : Nat) : Int) * dc := by
          push_cast; ring
        rw [← e1, ← e2]; exact this
    · intro r1 c1 hne
      have h0 := hne 0 (Nat.succ_pos k)
      simp only [Nat.cast_zero, zero_mul, add_zero] at h0
      have := hout r1 c1 (by
        intro i hi hh
        apply hne (i + 1) (Nat.succ_lt_succ hi)
        obtain ⟨e1, e2⟩ := hh
        constructor
        · rw [e1]; push_cast; ring
        · rw [e2]; push_cast; ring)
      rw [this, cellAt_set b x g0]
      simp [h0]

/-- The placing loop over `k` cells that all hold `0` adds `k` cells of value
`x` (for a step that moves one cell right or one cell down and `x ≠ 0`), and
leaves the count of every other non-zero value as it was. -/
theorem writeCells_count (dr dc x : Int) (hstep : (dr = 0 ∧ dc = 1) ∨ (dr = 1 ∧ dc = 0))
    (hx : x ≠ 0) :
    ∀ (k : Nat) (b b1 : Board) (r c : Int),
      (∀ i : Nat, i < k → cellAt b (r + i * dr) (c + i * dc) = some 0) →
      writeCells dr dc x b r c k = some b1 →
      countCells b1 x = countCells b x + k ∧
        ∀ v : Int, v ≠ x → v ≠ 0 → countCells b1 v = countCells b v := by
  intro k
  induction k with
  | zero =>
    intro b b1 r c _ hw
    simp only [writeCells] at hw
    cases Option.some.inj hw
    exact ⟨rfl, fun _ _ _ => rfl⟩
  | succ k ih =>
    intro b b1 r c hz hw
    have z0 := hz 0 (Nat.succ_pos k)
    simp only [Nat.cast_zero, zero_mul, add_zero] at z0
    have g0 := inGrid_of_cellAt z0
    simp only [writeCells, setCell_of_inGrid b x g0] at hw
    have hb0 : b (rowIdx r) (colIdx c) = 0 := by
      rw [cellAt_of_inGrid b g0] at z0
      exact Option.some.inj z0
    have hz1 : ∀ i : Nat, i < k →
        cellAt (b.set (rowIdx r) (colIdx c) x) (r + dr + i * dr) (c + dc + i * dc) = some 0 := by
      intro i hi
      have := hz (i + 1) (Nat.succ_lt_succ hi)
      have e1 : r + dr + (i : Int) * dr = r + ((i + 1 : Nat) : Int) * dr := by
        push_cast; ring
      have e2 : c + dc + (i : Int) * dc = c + ((i + 1 : Nat) : Int) * dc := by
        push_cast; ring
      rw [cellAt_set b x g0, e1, e2, this]
      have hne : ¬ (r + ((i + 1 : Nat) : Int) * dr = r ∧ c + ((i + 1 : Nat) : Int) * dc = c) := by
        rintro ⟨a1, a2⟩
        push_cast at a1 a2
        rcases hstep with ⟨s1, s2⟩ | ⟨s1, s2⟩
        · subst s1 s2; omega
        · subst s1 s2; omega
      rw [if_neg hne]
    obtain ⟨hc1, hc2⟩ := ih _ b1 _ _ hz1 hw
    constructor
    · have := countCells_set b (rowIdx r) (colIdx c) x x
      rw [hb0] at this
      have hx0 : ¬ ((0 : Int) = x) := fun e => hx e.symm
      simp only [hx0, if_false, if_true, add_zero] at this
      rw [hc1, this]; omega
    · intro v hv hv0
      have := countCells_set b (rowIdx r) (colIdx c) x v
      rw [hb0] at this
      have h1 : ¬ ((0 : Int) = v) := fun e => hv0 e.symm
      have h2 : ¬ (x = v) := fun e => hv e.symm
      simp only [h1, h2, if_false, add_zero] at this
      rw [hc2 v hv hv0, this]

/-! ## placeChest without wrap-around -/

theorem wrap32_eq {z : Int} (h : -2147483648 ≤ z ∧ z < 2147483648) : wrap32 z = z := by
  unfold wrap32
  omega

/-- From an origin inside the grid, and for an `int` chest code `x` for which
`offsetCol + (16 - x)` does not exceed the largest `int`, no sum of
`placeChest` wraps: the horizontal case. -/
theorem placeChest_horizontal_sum (b : Board) (row col x : Int) (hg : inGrid row col)
    (hx : x ≤ 2147483647) (hs : col + (16 - x) ≤ 2147483647) :
    placeChest b row col x 0 =
      if col + (16 - x) > (kcols : Int) then some (false, b)
      else
        match checkCells b 0 1 row col (16 - x).toNat with
        | none => none
        | some false => some (false, b)
        | some true =>
          match writeCells 0 1 x b row col (16 - x).toNat with
          | none => none
          | some a1 => some (true, a1) := by
  have hg1 := inGrid_iff.mp hg
  have e1 : wrap32 (16 - x) = 16 - x := wrap32_eq (by omega)
  have e2 : wrap32 (col + (16 - x)) = col + (16 - x) := wrap32_eq (by omega)
  have e3 : col + (16 - x) - col = 16 - x := by ring
  simp only [placeChest, if_true, e1, e2, e3]

/-- The vertical case of `placeChest_horizontal_sum`. -/
theorem placeChest_vertical_sum (b : Board) (row col x : Int) (hg : inGrid row col)
    (hx : x ≤ 2147483647) (hs : row + (16 - x) ≤ 2147483647) :
    placeChest b row col x 1 =
      if row + (16 - x) > (krows : Int) then some (false, b)
      else
        match checkCells b 1 0 row col (16 - x).toNat with
        | none => none
        | some false => some (false, b)
        | some true =>
          match writeCells 1 0 x b row col (16 - x).toNat with
          | none => none
          | some a1 => some (true, a1) := by
  have hg1 := inGrid_iff.mp hg
  have e1 : wrap32 (16 - x) = 16 - x := wrap32_eq (by omega)
  have e2 : wrap32 (row + (16 - x)) = row + (16 - x) := wrap32_eq (by omega)
  have e3 : row + (16 - x) - row = 16 - x := by ring
  simp only [placeChest, one_ne_zero, if_false, if_true, e1, e2, e3]

/-- From an origin inside the grid, and for a chest code whose length
`16 - x` added to a coordinate of the grid stays an `int`, no sum of
`placeChest` wraps: the horizontal case. -/
theorem placeChest_horizontal (b : Board) (row col x : Int) (hg : inGrid row col)
    (hx : -2147483622 ≤ x ∧ x ≤ 2147483647) :
    placeChest b row col x 0 =
      if col + (16 - x) > (kcols : Int) then some (false, b)
      else
        match checkCells b 0 1 row col (16 - x).toNat with
        | none => none
        | some false => some (false, b)
        | some true =>
          match writeCells 0 1 x b row col (16 - x).toNat with
          | none => none
          | some a1 => some (true, a1) := by
  have hg1 := inGrid_iff.mp hg
  exact placeChest_horizontal_sum b row col x hg hx.2 (by omega)

/-- The vertical case of `placeChest_horizontal`. -/
theorem placeChest_vertical (b : Board) (row col x : Int) (hg : inGrid row col)
    (hx : -2147483622 ≤ x ∧ x ≤ 2147483647) :
    placeChest b row col x 1 =
      if row + (16 - x) > (krows : Int) then some (false, b)
      else
        match checkCells b 1 0 row col (16 - x).toNat with
        | none => none
        | some false => some (false, b)
        | some true =>
          match writeCells 1 0 x b row col (16 - x).toNat with
          | none => none
          | some a1 => some (true, a1) := by
  have hg1 := inGrid_iff.mp hg
  exact placeChest_vertical_sum b row col x hg hx.2 (by omega)

/-! ## Spans -/

theorem inSpan_horizontal {row col x r1 c1 : Int} :
    inSpan row col x 0 r1 c1 ↔
      ∃ i : Nat, i < (16 - x).toNat ∧ r1 = row + i * 0 ∧ c1 = col + i * 1 := by
  simp only [inSpan, if_true, mul_zero, add_zero, mul_one]
  constructor
  · rintro ⟨e, h1, h2⟩
    exact ⟨(c1 - col).toNat, by omega, e, by omega⟩
  · rintro ⟨i, hi, e1, e2⟩
    exact ⟨e1, by omega, by omega⟩

theorem inSpan_vertical {row col x r1 c1 : Int} :
    inSpan row col x 1 r1 c1 ↔
      ∃ i : Nat, i < (16 - x).toNat ∧ r1 = row + i * 1 ∧ c1 = col + i * 0 := by
  simp only [inSpan, one_ne_zero, if_false, mul_zero, add_zero, mul_one]
  constructor
  · rintro ⟨e, h1, h2⟩
    exact ⟨(r1 - row).toNat, by omega, by omega, e⟩
  · rintro ⟨i, hi, e1, e2⟩
    exact ⟨e2, by omega, by omega⟩

/-- What a successful run of check loop and placing loop gives, for a step
`(dr, dc)` of one cell right or one cell down. -/
theorem place_loops (b : Board) (dr dc x row col : Int) (k : Nat)
    (hstep : (dr = 0 ∧ dc = 1) ∨ (dr = 1 ∧ dc = 0)) (hx : x ≠ 0)
    (hz : ∀ i : Nat, i < k → cellAt b (row + i * dr) (col + i * dc) = some 0) :
    checkCells b dr dc row col k = some true ∧
    ∃ b1, writeCells dr dc x b row col k = some b1 ∧
      (∀ i : Nat, i < k → cellAt b1 (row + i * dr) (col + i * dc) = some x) ∧
      (∀ r1 c1 : Int, (∀ i : Nat, i < k → ¬ (r1 = row + i * dr ∧ c1 = col + i * dc)) →
        cellAt b1 r1 c1 = cellAt b r1 c1) ∧
      countCells b1 x = countCells b x + k ∧
      ∀ v : Int, v ≠ x → v ≠ 0 → countCells b1 v = countCells b v := by
  refine ⟨checkCells_true b dr dc k row col hz, ?_⟩
  obtain ⟨b1, hw, hin, hout⟩ :=
    writeCells_spec dr dc x k b row col (fun i hi => inGrid_of_cellAt (hz i hi))
  obtain ⟨hc1, hc2⟩ := writeCells_count dr dc x hstep hx k b b1 row col hz hw
  exact ⟨b1, hw, hin, hout, hc1, hc2⟩

/-- A placement on a free span inside the grid: `placeChest` answers `true`,
the span holds `x`, every other cell is unchanged, and the number of cells
holding `x` grows by `16 - x` while no other non-zero value gains or loses a
cell. -/
theorem placeChest_free (b : Board) (row col x o : Int)
    (hx : 11 ≤ x ∧ x ≤ 15) (ho : o = 0 ∨ o = 1)
    (hspan : ∀ r1 c1 : Int, inSpan row col x o r1 c1 → cellAt b r1 c1 = some 0) :
    ∃ b1, placeChest b row col x o = some (true, b1) ∧
      (∀ r1 c1 : Int, inSpan row col x o r1 c1 → cellAt b1 r1 c1 = some x) ∧
      (∀ r1 c1 : Int, ¬ inSpan row col x o r1 c1 → cellAt b1 r1 c1 = cellAt b r1 c1) ∧
      countCells b1 x = countCells b x + (16 - x).toNat ∧
      ∀ v : Int, v ≠ x → v ≠ 0 → countCells b1 v = countCells b v := by
  have hx0 : x ≠ 0 := by omega
  rcases ho with ho | ho
  · subst ho
    have hz : ∀ i : Nat, i < (16 - x).toNat →
        cellAt b (row + i * 0) (col + i * 1) = some 0 := fun i hi =>
      hspan _ _ (inSpan_horizontal.mpr ⟨i, hi, rfl, rfl⟩)
    have hlast := inGrid_of_cellAt (hz ((16 - x).toNat - 1) (by omega))
    have hguard : ¬ (col + (16 - x) > (kcols : Int)) := by
      have := hlast.2.2.2
      simp only [kcols, Nat.cast_ofNat] at this ⊢
      omega
    obtain ⟨hchk, b1, hw, hin, hout, hc1, hc2⟩ :=
      place_loops b 0 1 x row col (16 - x).toNat (Or.inl ⟨rfl, rfl⟩) hx0 hz
    have horigin : inGrid row col := by
      have := inGrid_of_cellAt (hz 0 (by omega))
      simpa using this
    refine ⟨b1, ?_, ?_, ?_, hc1, hc2⟩
    · rw [placeChest_horizontal b row col x horigin (by omega)]
      simp only [hguard, if_false, hchk, hw]
    · intro r1 c1 hs
      obtain ⟨i, hi, e1, e2⟩ := inSpan_horizontal.mp hs
      rw [e1, e2]; exact hin i hi
    · intro r1 c1 hs
      exact hout r1 c1 (fun i hi hh => hs (inSpan_horizontal.mpr ⟨i, hi, hh.1, hh.2⟩))
  · subst ho
    have hz : ∀ i : Nat, i < (16 - x).toNat →
        cellAt b (row + i * 1) (col + i * 0) = some 0 := fun i hi =>
      hspan _ _ (inSpan_vertical.mpr ⟨i, hi, rfl, rfl⟩)
    have hlast := inGrid_of_cellAt (hz ((16 - x).toNat - 1) (by omega))
    have hguard : ¬ (row + (16 - x) > (krows : Int)) := by
      have := hlast.2.1
      simp only [krows, Nat.cast_ofNat] at this ⊢
      omega
    obtain ⟨hchk, b1, hw, hin, hout, hc1, hc2⟩ :=
      place_loops b 1 0 x row col (16 - x).toNat (Or.inr ⟨rfl, rfl⟩) hx0 hz
    have horigin : inGrid row col := by
      have := inGrid_of_cellAt (hz 0 (by omega))
      simpa using this
    refine ⟨b1, ?_, ?_, ?_, hc1, hc2⟩
    · rw [placeChest_vertical b row col x horigin (by omega)]
      simp only [hguard, if_false, hchk, hw]
    · intro r1 c1 hs
      obtain ⟨i, hi, e1, e2⟩ := inSpan_vertical.mp hs
      rw [e1, e2]; exact hin i hi
    · intro r1 c1 hs
      exact hout r1 c1 (fun i hi hh => hs (inSpan_vertical.mpr ⟨i, hi, hh.1, hh.2⟩))

/-- A placement whose span lies in the grid but holds a non-zero cell is
refused: `placeChest` answers `false` and hands back the board it was given. -/
theorem placeChest_occupied (b : Board) (row col x o : Int) (ho : o = 0 ∨ o = 1)
    (hgrid : ∀ r1 c1 : Int, inSpan row col x o r1 c1 → inGrid r1 c1)
    (hocc : ∃ r1 c1 : Int, inSpan row col x o r1 c1 ∧ cellAt b r1 c1 ≠ some 0) :
    placeChest b row col x o = some (false, b) := by
  obtain ⟨r1, c1, hs, hne⟩ := hocc
  rcases ho with ho | ho
  · subst ho
    obtain ⟨i, hi, e1, e2⟩ := inSpan_horizontal.mp hs
    have hg : ∀ i : Nat, i < (16 - x).toNat → inGrid (row + i * 0) (col + i * 1) :=
      fun i hi => hgrid _ _ (inSpan_horizontal.mpr ⟨i, hi, rfl, rfl⟩)
    have hchk := checkCells_false b 0 1 (16 - x).toNat row col hg
      ⟨i, hi, by rw [← e1, ← e2]; exact hne⟩
    have horigin : inGrid row col := by
      have := hg 0 (by omega)
      simpa using this
    have hlast := inGrid_iff.mp (hg ((16 - x).toNat - 1) (by omega))
    have ho1 := inGrid_iff.mp horigin
    rw [placeChest_horizontal b row col x horigin (by omega)]
    simp only [hchk]
    split <;> rfl
  · subst ho
    obtain ⟨i, hi, e1, e2⟩ := inSpan_vertical.mp hs
    have hg : ∀ i : Nat, i < (16 - x).toNat → inGrid (row + i * 1) (col + i * 0) :=
      fun i hi => hgrid _ _ (inSpan_vertical.mpr ⟨i, hi, rfl, rfl⟩)
    have hchk := checkCells_false b 1 0 (16 - x).toNat row col hg
      ⟨i, hi, by rw [← e1, ← e2]; exact hne⟩
    have horigin : inGrid row col := by
      have := hg 0 (by omega)
      simpa using this
    have hlast := inGrid_iff.mp (hg ((16 - x).toNat - 1) (by omega))
    have ho1 := inGrid_iff.mp horigin
    rw [placeChest_vertical b row col x horigin (by omega)]
    simp only [hchk]
    split <;> rfl

/-! ## dig, case by case -/

theorem ctrIdx_eq_iff {i i1 : Int} (h : 0 ≤ i ∧ i < 5) (h1 : 0 ≤ i1 ∧ i1 < 5) :
    ctrIdx i1 = ctrIdx i ↔ i1 = i := by
  constructor
  · intro e
    have hv : i1.toNat % 5 = i.toNat % 5 := congrArg Fin.val e
    omega
  · intro e; rw [e]

theorem counterAt_set (cf : Counters) {i : Int} (i1 v : Int) (h : 0 ≤ i ∧ i < 5) :
    counterAt (cf.set (ctrIdx i) v) i1 = if i1 = i then some v else counterAt cf i1 := by
  by_cases h1 : 0 ≤ i1 ∧ i1 < 5
  · simp only [counterAt, h1, and_self, if_true, Counters.set, ctrIdx_eq_iff h h1]
    split <;> rfl
  · have : ¬ i1 = i := fun e => h1 (e ▸ h)
    simp only [counterAt, h1, if_false, this]

/-- Digging an undug chest cell with a code in `11..15`. -/
theorem dig_chest (b : Board) (cf : Counters) {r c v : Int}
    (h : cellAt b r c = some v) (hv : 11 ≤ v ∧ v ≤ 15) :
    dig b r c cf = some
      { ret := 0
        board := b.set (rowIdx r) (colIdx c) (-v)
        chestsFound := cf.set (ctrIdx (v - 11)) (cf (ctrIdx (v - 11)) + 1)
        out := if cf (ctrIdx (v - 11)) + 1 = 16 - v then [Msg.chestDone (16 - v)] else [] } := by
  have hg := inGrid_of_cellAt h
  have h1 : ¬ v = -1 := by omega
  have h2 : v > 0 := by omega
  have h3 : 0 ≤ v - 11 ∧ v - 11 < 5 := by omega
  simp only [dig, h, h1, h2, if_false, if_true, setCell_of_inGrid b _ hg, counterAt, setCounter,
    h3, and_self]

/-- Digging an untouched empty cell. -/
theorem dig_empty (b : Board) (cf : Counters) {r c : Int} (h : cellAt b r c = some 0) :
    dig b r c cf = some
      { ret := 0, board := b.set (rowIdx r) (colIdx c) (-1), chestsFound := cf, out := [] } := by
  have hg := inGrid_of_cellAt h
  simp [dig, h, setCell_of_inGrid b _ hg]

/-- Digging a cell that holds a negative value changes nothing; the notice is
printed for the value `-1` only. -/
theorem dig_negative (b : Board) (cf : Counters) {r c v : Int}
    (h : cellAt b r c = some v) (hv : v < 0) :
    dig b r c cf = some
      { ret := 0, board := b, chestsFound := cf
        out := if v = -1 then [Msg.alreadyDug] else [] } := by
  have h2 : ¬ v > 0 := by omega
  have h3 : ¬ v = 0 := by omega
  by_cases h1 : v = -1
  · simp [dig, h, h1]
  · simp [dig, h, h1, h2, h3]

/-- A target outside the grid: the first statement of `dig` reads outside
the board, no result is defined. -/
theorem dig_outside (b : Board) (cf : Counters) {r c : Int} (h : ¬ inGrid r c) :
    dig b r c cf = none := by
  simp [dig, cellAt_eq_none b h]

/-- Whatever `dig` returns, the returned `int` is `0`. -/
theorem dig_ret (b : Board) (cf : Counters) (r c : Int) (res : DigResult)
    (h : dig b r c cf = some res) : res.ret = 0 := by
  unfold dig at h
  split at h
  · exact Option.noConfusion h
  · split at h
    · cases Option.some.inj h; rfl
    · split at h
      · simp only at h
        split at h
        · exact Option.noConfusion h
        · split at h
          · exact Option.noConfusion h
          · split at h
            · exact Option.noConfusion h
            · cases Option.some.inj h; rfl
      · split at h
        · split at h
          · exact Option.noConfusion h
          · cases Option.some.inj h; rfl
        · cases Option.some.inj h; rfl

/-! ## Placement from an origin inside the grid -/

/-- For an origin inside the grid the far-end test of `placeChest` is enough:
a span that leaves the grid is refused with the board as it was (for a chest
code whose length `16 - x` added to a coordinate of the grid stays an
`int`). -/
theorem placeChest_off_grid (b : Board) (row col x o : Int)
    (hg : inGrid row col) (ho : o = 0 ∨ o = 1) (hx : -2147483622 ≤ x ∧ x ≤ 2147483647)
    (hout : ∃ r1 c1 : Int, inSpan row col x o r1 c1 ∧ ¬ inGrid r1 c1) :
    placeChest b row col x o = some (false, b) := by
  obtain ⟨r1, c1, hs, hng⟩ := hout
  have hg0 := hg
  rw [inGrid_iff] at hg hng
  rcases ho with ho | ho
  · subst ho
    simp only [inSpan, if_true] at hs
    have hguard : col + (16 - x) > (kcols : Int) := by
      simp only [kcols, Nat.cast_ofNat]; omega
    rw [placeChest_horizontal b row col x hg0 hx]
    simp only [hguard, if_true]
  · subst ho
    simp only [inSpan, one_ne_zero, if_false] at hs
    have hguard : row + (16 - x) > (krows : Int) := by
      simp only [krows, Nat.cast_ofNat]; omega
    rw [placeChest_vertical b row col x hg0 hx]
    simp only [hguard, if_true]

/-- The two loops together, over `k` cells of the grid: either every cell
holds `0` and the span ends up holding `x`, or the check loop answers
`false`. -/
theorem place_loops_total (b : Board) (dr dc x row col : Int) (k : Nat)
    (hg : ∀ i : Nat, i < k → inGrid (row + i * dr) (col + i * dc)) :
    (checkCells b dr dc row col k = some true ∧
      ∃ b1, writeCells dr dc x b row col k = some b1 ∧
        ∀ i : Nat, i < k → cellAt b1 (row + i * dr) (col + i * dc) = some x)
    ∨ checkCells b dr dc row col k = some false := by
  by_cases hz : ∀ i : Nat, i < k → cellAt b (row + i * dr) (col + i * dc) = some 0
  · left
    obtain ⟨b1, hw, hin, _⟩ := writeCells_spec dr dc x k b row col hg
    exact ⟨checkCells_true b dr dc k row col hz, b1, hw, hin⟩
  · right
    push_neg at hz
    obtain ⟨i, hi, hne⟩ := hz
    exact checkCells_false b dr dc k row col hg ⟨i, hi, hne⟩

/-- For an origin inside the grid and orientation `0` or `1`, and an `int`
chest code `x` for which the sum `offsetCol + (16 - x)` (horizontal) or
`offsetRow + (16 - x)` (vertical) does not exceed the largest `int`:
`placeChest` either answers `true` with the whole span holding the code, or
answers `false` with the board as it was. -/
theorem placeChest_all_or_nothing_sum (b : Board) (row col x o : Int)
    (hg : inGrid row col) (ho : o = 0 ∨ o = 1) (hx : x ≤ 2147483647)
    (hs : (if o = 0 then col else row) + (16 - x) ≤ 2147483647) :
    (∃ b1, placeChest b row col x o = some (true, b1) ∧
      ∀ r1 c1 : Int, inSpan row col x o r1 c1 → cellAt b1 r1 c1 = some x)
    ∨ placeChest b row col x o = some (false, b) := by
  have hg1 := inGrid_iff.mp hg
  rcases ho with ho | ho
  · subst ho
    simp only [if_true] at hs
    rw [placeChest_horizontal_sum b row col x hg hx hs]
    by_cases hguard : col + (16 - x) > (kcols : Int)
    · right
      simp only [hguard, if_true]
    · have hcells : ∀ i : Nat, i < (16 - x).toNat → inGrid (row + i * 0) (col + i * 1) := by
        intro i hi
        simp only [kcols, Nat.cast_ofNat] at hguard
        exact inGrid_iff.mpr (by omega)
      rcases place_loops_total b 0 1 x row col _ hcells with ⟨hchk, b1, hw, hin⟩ | hchk
      · left
        refine ⟨b1, by simp only [hguard, if_false, hchk, hw], ?_⟩
        intro r1 c1 hs
        obtain ⟨i, hi, e1, e2⟩ := inSpan_horizontal.mp hs
        rw [e1, e2]; exact hin i hi
      · right
        simp only [hguard, if_false, hchk]
  · subst ho
    simp only [one_ne_zero, if_false] at hs
    rw [placeChest_vertical_sum b row col x hg hx hs]
    by_cases hguard : row + (16 - x) > (krows : Int)
    · right
      simp only [hguard, if_true]
    · have hcells : ∀ i : Nat, i < (16 - x).toNat → inGrid (row + i * 1) (col + i * 0) := by
        intro i hi
        simp only [krows, Nat.cast_ofNat] at hguard
        exact inGrid_iff.mpr (by omega)
      rcases place_loops_total b 1 0 x row col _ hcells with ⟨hchk, b1, hw, hin⟩ | hchk
      · left
        refine ⟨b1, by simp only [hguard, if_false, hchk, hw], ?_⟩
        intro r1 c1 hs
        obtain ⟨i, hi, e1, e2⟩ := inSpan_vertical.mp hs
        rw [e1, e2]; exact hin i hi
      · right
        simp only [hguard, if_false, hchk]

/-- For an origin inside the grid and orientation `0` or `1`, and a chest
code whose length `16 - x` added to a coordinate of the grid stays an `int`:
`placeChest` either answers `true` with the whole span holding the code, or
answers `false` with the board as it was. -/
theorem placeChest_all_or_nothing (b : Board) (row col x o : Int)
    (hg : inGrid row col) (ho : o = 0 ∨ o = 1) (hx : -2147483622 ≤ x ∧ x ≤ 2147483647) :
    (∃ b1, placeChest b row col x o = some (true, b1) ∧
      ∀ r1 c1 : Int, inSpan row col x o r1 c1 → cellAt b1 r1 c1 = some x)
    ∨ placeChest b row col x o = some (false, b) := by
  have hg1 := inGrid_iff.mp hg
  refine placeChest_all_or_nothing_sum b row col x o hg ho hx.2 ?_
  split <;> omega

/-! ## Successful placements -/

/-- When `placeChest` answers `true` from an origin inside the grid, for
orientation `0` or `1`, the whole span held `0` in the board it was given
(and so lay in the grid). -/
theorem placeChest_true_inv (b b1 : Board) (row col x o : Int) (ho : o = 0 ∨ o = 1)
    (hg : inGrid row col) (hx : -2147483622 ≤ x ∧ x ≤ 2147483647)
    (h : placeChest b row col x o = some (true, b1)) :
    ∀ r1 c1 : Int, inSpan row col x o r1 c1 → cellAt b r1 c1 = some 0 := by
  intro r1 c1 hs
  rcases ho with ho | ho
  · subst ho
    obtain ⟨i, hi, e1, e2⟩ := inSpan_horizontal.mp hs
    rw [placeChest_horizontal b row col x hg hx] at h
    split at h
    · exact absurd (congrArg Prod.fst (Option.some.inj h)) Bool.false_ne_true
    · split at h
      · exact Option.noConfusion h
      · exact absurd (congrArg Prod.fst (Option.some.inj h)) Bool.false_ne_true
      · rename_i hchk
        rw [e1, e2]
        exact checkCells_true_inv b 0 1 _ row col hchk i hi
  · subst ho
    obtain ⟨i, hi, e1, e2⟩ := inSpan_vertical.mp hs
    rw [placeChest_vertical b row col x hg hx] at h
    split at h
    · exact absurd (congrArg Prod.fst (Option.some.inj h)) Bool.false_ne_true
    · split at h
      · exact Option.noConfusion h
      · exact absurd (congrArg Prod.fst (Option.some.inj h)) Bool.false_ne_true
      · rename_i hchk
        rw [e1, e2]
        exact checkCells_true_inv b 1 0 _ row col hchk i hi

/-- A request of a chest type in `11..15` that `placeChest` accepts from an
origin outside the grid has placed nothing: its far end wrapped around the
`int` range, so that the bounds test let it through and both loops ran zero
times. -/
theorem placeChest_true_outside (b b1 : Board) (row col x o : Int)
    (hx : 11 ≤ x ∧ x ≤ 15) (ho : o = 0 ∨ o = 1) (hng : ¬ inGrid row col)
    (h : placeChest b row col x o = some (true, b1)) : b1 = b := by
  have e1 : wrap32 (16 - x) = 16 - x := wrap32_eq (by omega)
  rcases ho with ho | ho
  · subst ho
    simp only [placeChest, if_true, e1] at h
    split at h
    · exact absurd (congrArg Prod.fst (Option.some.inj h)) Bool.false_ne_true
    · cases hk : (wrap32 (col + (16 - x)) - col).toNat with
      | zero =>
        simp only [hk, checkCells, writeCells] at h
        exact (congrArg Prod.snd (Option.some.inj h)).symm
      | succ k =>
        simp only [hk, checkCells, cellAt_eq_none b hng] at h
        exact Option.noConfusion h
  · subst ho
    simp only [placeChest, one_ne_zero, if_false, if_true, e1] at h
    split at h
    · exact absurd (congrArg Prod.fst (Option.some.inj h)) Bool.false_ne_true
    · cases hk : (wrap32 (row + (16 - x)) - row).toNat with
      | zero =>
        simp only [hk, checkCells, writeCells] at h
        exact (congrArg Prod.snd (Option.some.inj h)).symm
      | succ k =>
        simp only [hk, checkCells, cellAt_eq_none b hng] at h
        exact Option.noConfusion h

/-- Everything an accepted placement of a chest type in `11..15` from an
origin inside the grid does. -/
theorem placeChest_true_spec (b b1 : Board) (row col x o : Int)
    (hx : 11 ≤ x ∧ x ≤ 15) (ho : o = 0 ∨ o = 1) (hg : inGrid row col)
    (h : placeChest b row col x o = some (true, b1)) :
    (∀ r1 c1 : Int, inSpan row col x o r1 c1 → cellAt b r1 c1 = some 0) ∧
      (∀ r1 c1 : Int, inSpan row col x o r1 c1 → cellAt b1 r1 c1 = some x) ∧
      (∀ r1 c1 : Int, ¬ inSpan row col x o r1 c1 → cellAt b1 r1 c1 = cellAt b r1 c1) ∧
      countCells b1 x = countCells b x + (16 - x).toNat ∧
      ∀ v : Int, v ≠ x → v ≠ 0 → countCells b1 v = countCells b v := by
  have hz := placeChest_true_inv b b1 row col x o ho hg (by omega) h
  obtain ⟨b2, h2, p1, p2, p3, p4⟩ := placeChest_free b row col x o hx ho hz
  rw [h] at h2
  have e : b1 = b2 := congrArg Prod.snd (Option.some.inj h2)
  subst e
  exact ⟨hz, p1, p2, p3, p4⟩

theorem placedRequests_cons_in (p : Placement) (ps : List Placement)
    (hg : inGrid p.rowLocation p.colLocation) :
    placedRequests (p :: ps) = p :: placedRequests ps := by
  simp [placedRequests, List.filter, Placement.onBoard, hg]

theorem placedRequests_cons_out (p : Placement) (ps : List Placement)
    (hg : ¬ inGrid p.rowLocation p.colLocation) :
    placedRequests (p :: ps) = placedRequests ps := by
  simp [placedRequests, List.filter, Placement.onBoard, hg]

/-- Counts after a placement phase: each chest type `t` has gained `16 - t`
cells per accepted request of that type with an origin inside the grid,
negative values are untouched, and a board of `0` and undug chest cells stays
one. -/
theorem placementPhase_counts :
    ∀ (ps : List Placement) (b b1 : Board), (∀ p ∈ ps, p.wellFormed) →
      placementPhase b ps = some b1 →
      (∀ t : Int, 11 ≤ t ∧ t ≤ 15 →
        countCells b1 t
          = countCells b t
            + ((placedRequests ps).map Placement.chestType).count t * (16 - t).toNat) ∧
      (∀ v : Int, v < 0 → countCells b1 v = countCells b v) ∧
      ((∀ i j, b i j = 0 ∨ (11 ≤ b i j ∧ b i j ≤ 15)) →
        ∀ i j, b1 i j = 0 ∨ (11 ≤ b1 i j ∧ b1 i j ≤ 15)) := by
  intro ps
  induction ps with
  | nil =>
    intro b b1 _ h
    simp only [placementPhase] at h
    cases Option.some.inj h
    exact ⟨fun t _ => by simp [placedRequests], fun _ _ => rfl, fun h => h⟩
  | cons p ps ih =>
    intro b b1 hwf h
    have hp := hwf p (List.mem_cons_self p ps)
    have hp1 : 11 ≤ p.chestType := hp.1
    have hp2 : p.chestType ≤ 15 := hp.2.1
    simp only [placementPhase, placeChestChecker] at h
    split at h
    · rename_i b2 hpl
      obtain ⟨i1, i2, i3⟩ := ih b2 b1 (fun p1 h1 => hwf p1 (List.mem_cons_of_mem p h1)) h
      by_cases hg : inGrid p.rowLocation p.colLocation
      · obtain ⟨_, q1, q2, q3, q4⟩ :=
          placeChest_true_spec b b2 _ _ _ _ ⟨hp.1, hp.2.1⟩ hp.2.2 hg hpl
        rw [placedRequests_cons_in p ps hg]
        refine ⟨?_, ?_, ?_⟩
        · intro t ht
          rw [i1 t ht, List.map_cons]
          by_cases e : t = p.chestType
          · subst e
            rw [q3, List.count_cons_self]
            ring
          · rw [q4 t e (by omega), List.count_cons_of_ne e]
        · intro v hv
          rw [i2 v hv, q4 v (by omega) (by omega)]
        · intro hb
          apply i3
          intro i j
          by_cases hs : inSpan p.rowLocation p.colLocation p.chestType p.horiVert i j
          · have := q1 i j hs
            rw [cellAt_cast] at this
            rw [Option.some.inj this]
            exact Or.inr ⟨hp.1, hp.2.1⟩
          · have := q2 i j hs
            rw [cellAt_cast, cellAt_cast] at this
            rw [Option.some.inj this]
            exact hb i j
      · have e := placeChest_true_outside b b2 _ _ _ _ ⟨hp.1, hp.2.1⟩ hp.2.2 hg hpl
        subst e
        rw [placedRequests_cons_out p ps hg]
        exact ⟨i1, i2, i3⟩
    · exact Option.noConfusion h

/-! ## One dig on a valid board -/

theorem validBoard_set {b : Board} (hv : validBoard b) (i : Fin krows) (j : Fin kcols)
    {w : Int} (hw : validCell w) : validBoard (b.set i j w) := by
  intro i1 j1
  simp only [Board.set]
  split
  · exact hw
  · exact hv i1 j1

/-- One dig on a valid board, seen from a chest type `t`: either the target
held `t`, and then one cell moves from `t` to `-t`, the counter of `t` grows
by one and the completion line is printed exactly when the counter reaches
`16 - t`; or the target held something else, and then counts and counter of
`t` stay as they were and no completion line for `t` is printed. -/
theorem dig_step (b : Board) (cf : Counters) (r c : Int)
    (hv : validBoard b) (hg : inGrid r c) :
    ∃ res, dig b r c cf = some res ∧ validBoard res.board ∧
      ∀ t : Int, 11 ≤ t ∧ t ≤ 15 →
        (cellAt b r c = some t ∧
          countCells res.board t + 1 = countCells b t ∧
          countCells res.board (-t) = countCells b (-t) + 1 ∧
          res.chestsFound (ctrIdx (t - 11)) = cf (ctrIdx (t - 11)) + 1 ∧
          res.out = if cf (ctrIdx (t - 11)) + 1 = 16 - t then [Msg.chestDone (16 - t)] else [])
        ∨ (cellAt b r c ≠ some t ∧
          countCells res.board t = countCells b t ∧
          countCells res.board (-t) = countCells b (-t) ∧
          res.chestsFound (ctrIdx (t - 11)) = cf (ctrIdx (t - 11)) ∧
          res.out.count (Msg.chestDone (16 - t)) = 0) := by
  have hc := cellAt_of_inGrid b hg
  generalize hval : b (rowIdx r) (colIdx c) = v at hc
  have hcell := hv (rowIdx r) (colIdx c)
  rw [hval] at hcell
  rcases hcell with h | h | h | h
  · subst h
    refine ⟨_, dig_empty b cf hc, validBoard_set hv _ _ (by decide), ?_⟩
    intro t ht
    right
    have k1 := countCells_set b (rowIdx r) (colIdx c) (-1) t
    have k2 := countCells_set b (rowIdx r) (colIdx c) (-1) (-t)
    rw [hval] at k1 k2
    have a1 : ¬ ((0 : Int) = t) := by omega
    have a2 : ¬ ((-1 : Int) = t) := by omega
    have a3 : ¬ ((0 : Int) = -t) := by omega
    have a4 : ¬ ((-1 : Int) = -t) := by omega
    simp only [a1, a2, a3, a4, if_false, add_zero] at k1 k2
    refine ⟨?_, k1, k2, rfl, rfl⟩
    rw [hc]
    intro e
    exact a1 (Option.some.inj e)
  · subst h
    refine ⟨_, dig_negative b cf hc (by decide), hv, ?_⟩
    intro t ht
    right
    refine ⟨?_, rfl, rfl, rfl, ?_⟩
    · rw [hc]
      intro e
      have := Option.some.inj e
      omega
    · simp
  · refine ⟨_, dig_chest b cf hc h, validBoard_set hv _ _ (Or.inr (Or.inr (Or.inr (by omega)))), ?_⟩
    intro t ht
    have hi : 0 ≤ v - 11 ∧ v - 11 < 5 := by omega
    have hti : 0 ≤ t - 11 ∧ t - 11 < 5 := by omega
    have k1 := countCells_set b (rowIdx r) (colIdx c) (-v) t
    have k2 := countCells_set b (rowIdx r) (colIdx c) (-v) (-t)
    rw [hval] at k1 k2
    by_cases e : v = t
    · subst e
      left
      have a2 : ¬ (-v = v) := by omega
      simp only [a2, if_true, if_false, add_zero] at k1 k2
      have a3 : ¬ (v = -v) := by omega
      simp only [a3, if_false, add_zero] at k2
      refine ⟨hc, k1, k2, ?_, rfl⟩
      simp only [Counters.set, if_true]
    · right
      have a1 : ¬ (-v = t) := by omega
      have a3 : ¬ (v = -t) := by omega
      have a4 : ¬ (-v = -t) := by omega
      simp only [e, a1, a3, a4, if_false, add_zero] at k1 k2
      refine ⟨?_, k1, k2, ?_, ?_⟩
      · rw [hc]
        intro e1
        exact e (Option.some.inj e1)
      · have hne : ¬ (ctrIdx (t - 11) = ctrIdx (v - 11)) := by
          rw [ctrIdx_eq_iff hi hti]
          omega
        simp only [Counters.set, hne, if_false]
      · have hsz : ¬ (16 - v = 16 - t) := by omega
        split
        · rw [List.count_cons_of_ne (by
            intro e1
            injection e1 with e2
            exact hsz e2.symm)]
          rfl
        · rfl
  · refine ⟨_, dig_negative b cf hc (by omega), hv, ?_⟩
    intro t ht
    right
    have a1 : ¬ (v = -1) := by omega
    refine ⟨?_, rfl, rfl, rfl, ?_⟩
    · rw [hc]
      intro e
      have := Option.some.inj e
      omega
    · simp only [a1, if_false]
      rfl

/-- One dig on a valid board whose counters match the dug cells and that
carries one chest of each type: all three properties survive the dig, and the
completion line of a chest type `t` is printed exactly by the dig that takes
the last undug cell of type `t`. -/
theorem dig_step_inv (b : Board) (cf : Counters) (r c : Int)
    (hv : validBoard b) (hm : countersMatch b cf) (h1 : oneChestEach b) (hg : inGrid r c) :
    ∃ res, dig b r c cf = some res ∧ validBoard res.board ∧
      countersMatch res.board res.chestsFound ∧ oneChestEach res.board ∧
      ∀ t : Int, 11 ≤ t ∧ t ≤ 15 →
        (Msg.chestDone (16 - t) ∈ res.out ↔
          countCells b t ≠ 0 ∧ countCells res.board t = 0) ∧
        res.out.count (Msg.chestDone (16 - t)) + (if countCells b t = 0 then 1 else 0)
          = if countCells res.board t = 0 then 1 else 0 := by
  obtain ⟨res, hd, hv1, hstep⟩ := dig_step b cf r c hv hg
  refine ⟨res, hd, hv1, ?_, ?_, ?_⟩
  · intro t ht
    have m := hm t ht
    rcases hstep t ht with ⟨_, _, s2, s3, _⟩ | ⟨_, _, s2, s3, _⟩
    · rw [s3, s2, m]; push_cast; ring
    · rw [s3, s2, m]
  · intro t ht
    have o := h1 t ht
    rcases hstep t ht with ⟨_, s1, s2, _, _⟩ | ⟨_, s1, s2, _, _⟩
    · omega
    · omega
  · intro t ht
    have m := hm t ht
    have o := h1 t ht
    rcases hstep t ht with ⟨_, s1, s2, s3, s4⟩ | ⟨_, s1, s2, s3, s4⟩
    · by_cases hfull : cf (ctrIdx (t - 11)) + 1 = 16 - t
      · have z : countCells res.board t = 0 := by omega
        have nz : countCells b t ≠ 0 := by omega
        rw [s4]
        simp only [hfull, if_true, List.mem_singleton, true_iff, z, nz, if_false, add_zero,
          ne_eq, not_false_eq_true, and_self, List.count_cons_self, List.count_nil, zero_add]
      · have z : countCells res.board t ≠ 0 := by omega
        have nz : countCells b t ≠ 0 := by omega
        rw [s4]
        simp only [hfull, if_false, List.not_mem_nil, z, nz, and_false, List.count_nil, add_zero,
          and_self]
    · have hnot : Msg.chestDone (16 - t) ∉ res.out := by
        intro hmem
        have := List.count_pos_iff.mpr hmem
        omega
      rw [s4, s1]
      constructor
      · constructor
        · intro hmem; exact absurd hmem hnot
        · rintro ⟨a, b⟩; exact absurd b a
      · simp

/-! ## The dig phase on a board with one chest of each type -/

theorem countCells_emptyBoard {v : Int} (hv : v ≠ 0) : countCells emptyBoard v = 0 := by
  unfold countCells
  rw [Finset.card_eq_zero, Finset.filter_eq_empty_iff]
  intro p _ h
  exact hv h.symm

/-- The board left by a placement phase that places each chest type `11..15`
exactly once: valid cells, nothing dug, `16 - t` cells of each type `t`. -/
theorem placementPhase_board (ps : List Placement) (b : Board)
    (hwf : ∀ p ∈ ps, p.wellFormed)
    (honce : ∀ t : Int, 11 ≤ t ∧ t ≤ 15 →
      ((placedRequests ps).map Placement.chestType).count t = 1)
    (hb : placementPhase emptyBoard ps = some b) :
    validBoard b ∧ countersMatch b zeroCounters ∧ oneChestEach b ∧
      ∀ t : Int, 11 ≤ t ∧ t ≤ 15 → countCells b t = (16 - t).toNat := by
  obtain ⟨c1, c2, c3⟩ := placementPhase_counts ps emptyBoard b hwf hb
  have hpos : ∀ t : Int, 11 ≤ t ∧ t ≤ 15 → countCells b t = (16 - t).toNat := by
    intro t ht
    rw [c1 t ht, honce t ht, countCells_emptyBoard (by omega)]
    omega
  have hneg : ∀ t : Int, 11 ≤ t ∧ t ≤ 15 → countCells b (-t) = 0 := by
    intro t ht
    rw [c2 (-t) (by omega), countCells_emptyBoard (by omega)]
  refine ⟨?_, ?_, ?_, hpos⟩
  · intro i j
    rcases c3 (fun _ _ => Or.inl rfl) i j with h | h
    · exact Or.inl h
    · exact Or.inr (Or.inr (Or.inl h))
  · intro t ht
    rw [hneg t ht]
    rfl
  · intro t ht
    rw [hpos t ht, hneg t ht]
    rfl

/-- A run of in-grid digs keeps a valid board valid, keeps the counters equal
to the dug cells and keeps one chest of each type; the number of completion
lines of type `t` it prints is `1` when it takes the last undug cell of type
`t`, and `0` otherwise. -/
theorem digSeq_inv :
    ∀ (qs : List (Int × Int)) (b : Board) (cf : Counters),
      validBoard b → countersMatch b cf → oneChestEach b →
      (∀ q ∈ qs, inGrid q.1 q.2) →
      ∃ b2 cf2 out, digSeq b cf qs = some (b2, cf2, out) ∧
        validBoard b2 ∧ countersMatch b2 cf2 ∧ oneChestEach b2 ∧
        ∀ t : Int, 11 ≤ t ∧ t ≤ 15 →
          out.count (Msg.chestDone (16 - t)) + (if countCells b t = 0 then 1 else 0)
            = if countCells b2 t = 0 then 1 else 0 := by
  intro qs
  induction qs with
  | nil =>
    intro b cf hv hm h1 _
    exact ⟨b, cf, [], rfl, hv, hm, h1, fun t _ => by simp⟩
  | cons q qs ih =>
    intro b cf hv hm h1 hin
    obtain ⟨res, hd, rv, rm, r1, rev⟩ :=
      dig_step_inv b cf q.1 q.2 hv hm h1 (hin q (List.mem_cons_self q qs))
    obtain ⟨b2, cf2, out, hs, v2, m2, o2, ev2⟩ :=
      ih res.board res.chestsFound rv rm r1 (fun q1 h => hin q1 (List.mem_cons_of_mem q h))
    refine ⟨b2, cf2, res.out ++ out, ?_, v2, m2, o2, ?_⟩
    · simp only [digSeq, hd, hs]
    · intro t ht
      have e1 := (rev t ht).2
      have e2 := ev2 t ht
      rw [List.count_append]
      omega

/-! ## The dig phase seen from one chest type -/

/-- C1: for a chest type `x` in `11..15`, orientation `0` or `1` and an
origin in the grid, when the span of `16 - x` cells from the origin lies in
the grid and holds only `0`, `placeChest` returns `true`, every cell of the
span holds `x` afterwards, every cell outside the span is unchanged, and the
number of cells holding `x` has grown by exactly `16 - x` (no other non-zero
value gains or loses a cell). -/
theorem placeChest_valid_placement (b : Board) (row col x o : Int)
    (_hg : inGrid row col) (hx : 11 ≤ x ∧ x ≤ 15) (ho : o = 0 ∨ o = 1)
    (hspan : ∀ r1 c1 : Int, inSpan row col x o r1 c1 →
      inGrid r1 c1 ∧ cellAt b r1 c1 = some 0) :
    ∃ b1, placeChest b row col x o = some (true, b1) ∧
      (∀ r1 c1 : Int, inSpan row col x o r1 c1 → cellAt b1 r1 c1 = some x) ∧
      (∀ r1 c1 : Int, ¬ inSpan row col x o r1 c1 → cellAt b1 r1 c1 = cellAt b r1 c1) ∧
      countCells b1 x = countCells b x + (16 - x).toNat ∧
      ∀ v : Int, v ≠ x → v ≠ 0 → countCells b1 v = countCells b v :=
  placeChest_free b row col x o hx ho (fun r1 c1 h => (hspan r1 c1 h).2)

/-- Witness of C1: chest `11` placed horizontally at `(0, 0)` on the empty
board, as in the sample run of the source. -/
theorem placeChest_valid_placement_witness :
    ∃ b1, placeChest emptyBoard 0 0 11 0 = some (true, b1) ∧
      cellAt b1 0 4 = some 11 ∧ cellAt b1 0 5 = some 0 ∧
      countCells b1 11 = countCells emptyBoard 11 + 5 := by
  obtain ⟨b1, h1, h2, h3, h4, _⟩ :=
    placeChest_valid_placement emptyBoard 0 0 11 0 (by decide) (by decide) (Or.inl rfl)
      (by
        intro r1 c1 h
        simp only [inSpan, if_true] at h
        have hg : inGrid r1 c1 := inGrid_iff.mpr (by omega)
        exact ⟨hg, by rw [cellAt_of_inGrid _ hg]; rfl⟩)
  refine ⟨b1, h1, h2 0 4 (by decide), ?_, h4⟩
  rw [h3 0 5 (by decide)]
  decide

/-- C2, evaluated at two origins outside the grid: for chest `11` placed
horizontally at `(10, 0)` or at `(0, -1)` the only bounds test,
`offsetCol + n > kcols`, lets the call through (`0 + 5` and `-1 + 5` do not
exceed `10`), and the validity loop then reads `array[10][0]`, respectively
`array[0][-1]`, outside the board: the call does not return `false`. -/
theorem placeChest_origin_outside_grid :
    placeChest emptyBoard 10 0 11 0 = none ∧ placeChest emptyBoard 0 (-1) 11 0 = none ∧
      placeChest emptyBoard 10 0 11 0 ≠ some (false, emptyBoard) := by
  refine ⟨by rfl, by rfl, ?_⟩
  intro h
  have h1 : placeChest emptyBoard 10 0 11 0 = none := by rfl
  rw [h1] at h
  exact Option.noConfusion h

/-- C3: for a chest type in `11..15`, orientation `0` or `1` and a span that
lies in the grid, when at least one cell of the span is not `0`,
`placeChest` returns `false` and the board is unchanged. -/
theorem placeChest_overlap_rejected (b : Board) (row col x o : Int)
    (_hx : 11 ≤ x ∧ x ≤ 15) (ho : o = 0 ∨ o = 1)
    (hgrid : ∀ r1 c1 : Int, inSpan row col x o r1 c1 → inGrid r1 c1)
    (hocc : ∃ r1 c1 : Int, inSpan row col x o r1 c1 ∧ cellAt b r1 c1 ≠ some 0) :
    placeChest b row col x o = some (false, b) :=
  placeChest_occupied b row col x o ho hgrid hocc

/-- Witness of C3: with a cell of value `11` at `(0, 2)`, chest `12` placed
horizontally at `(0, 2)` is refused. -/
theorem placeChest_overlap_rejected_witness :
    placeChest (emptyBoard.set 0 2 11) 0 2 12 0 = some (false, emptyBoard.set 0 2 11) :=
  placeChest_overlap_rejected (emptyBoard.set 0 2 11) 0 2 12 0 (by decide) (Or.inl rfl)
    (by
      intro r1 c1 h
      simp only [inSpan, if_true] at h
      exact inGrid_iff.mpr (by omega))
    ⟨0, 2, by decide, by decide⟩

/-- C4 fails for an orientation other than `0` and `1`, and for a chest code
so far below zero that the far end of the span overflows.  `placeChest` on
the empty board at `(0, 0)` with chest `11` and orientation `2` takes
neither branch and returns `true`, yet cell `(0, 0)` of the span still holds
`0`.  With chest code `-2147483623`, whose length `16 - x` is `2147483639`,
placed horizontally at `(0, 9)`, the sum `offsetCol + n` wraps to
`-2147483648`: the bounds test and both loops are skipped and `true` is
returned, yet cell `(0, 9)` of the span still holds `0`. -/
theorem placeChest_true_without_placing :
    (placeChest emptyBoard 0 0 11 2 = some (true, emptyBoard) ∧
      cellAt emptyBoard 0 0 = some 0) ∧
    (placeChest emptyBoard 0 9 (-2147483623) 0 = some (true, emptyBoard) ∧
      inSpan 0 9 (-2147483623) 0 0 9 ∧ cellAt emptyBoard 0 9 = some 0) := by
  exact ⟨⟨by rfl, by rfl⟩, by rfl, by decide, by rfl⟩

/-- C4 as amended: for every board, every origin inside the grid, orientation
`0` or `1` (the two values `userInput` and `aiInput` pass), and every `int`
chest code `x` for which the sum `offsetCol + (16 - x)` of a horizontal
request, `offsetRow + (16 - x)` of a vertical one, does not exceed the
largest `int`, `placeChest` is all-or-nothing: either it returns `true` and
every cell of the span of `16 - x` cells from the origin holds the chest
code, or it returns `false` and the board is unchanged. -/
theorem placeChest_atomic (b : Board) (row col x o : Int)
    (hg : inGrid row col) (ho : o = 0 ∨ o = 1) (hx : x ≤ 2147483647)
    (hsum : (if o = 0 then col else row) + (16 - x) ≤ 2147483647) :
    (∃ b1, placeChest b row col x o = some (true, b1) ∧
      ∀ r1 c1 : Int, inSpan row col x o r1 c1 → cellAt b1 r1 c1 = some x)
    ∨ placeChest b row col x o = some (false, b) :=
  placeChest_all_or_nothing_sum b row col x o hg ho hx hsum

/-- Witness of the amended C4: chest `12` asked for vertically at `(7, 3)` on
the empty board, where its four cells do not fit. -/
theorem placeChest_atomic_witness :
    (∃ b1, placeChest emptyBoard 7 3 12 1 = some (true, b1) ∧
      ∀ r1 c1 : Int, inSpan 7 3 12 1 r1 c1 → cellAt b1 r1 c1 = some 12)
    ∨ placeChest emptyBoard 7 3 12 1 = some (false, emptyBoard) :=
  placeChest_atomic emptyBoard 7 3 12 1 (by decide) (Or.inr rfl) (by decide) (by decide)

/-! ## Digging: claims C5 to C10 -/

/-- C5: for an in-grid target whose cell holds an undug chest code `c` in
`11..15`, `dig` sets that cell to `-c`, increases `chestsFound[c - 11]` by
exactly one, and leaves every other cell and every other counter unchanged. -/
theorem dig_undug_chest (b : Board) (cf : Counters) (row col c : Int)
    (_hg : inGrid row col) (hc : cellAt b row col = some c) (hr : 11 ≤ c ∧ c ≤ 15) :
    ∃ res, dig b row col cf = some res ∧
      cellAt res.board row col = some (-c) ∧
      (∀ r1 c1 : Int, ¬ (r1 = row ∧ c1 = col) → cellAt res.board r1 c1 = cellAt b r1 c1) ∧
      (∃ old, counterAt cf (c - 11) = some old ∧
        counterAt res.chestsFound (c - 11) = some (old + 1)) ∧
      (∀ i : Int, i ≠ c - 11 → counterAt res.chestsFound i = counterAt cf i) := by
  have hg := inGrid_of_cellAt hc
  have hi : 0 ≤ c - 11 ∧ c - 11 < 5 := by omega
  refine ⟨_, dig_chest b cf hc hr, ?_, ?_, ?_, ?_⟩
  · simp only [cellAt_set b _ hg, and_self, if_true]
  · intro r1 c1 hne
    simp only [cellAt_set b _ hg, hne, if_false]
  · refine ⟨cf (ctrIdx (c - 11)), ?_, ?_⟩
    · simp only [counterAt, hi, and_self, if_true]
    · simp only [counterAt_set cf _ _ hi, if_true]
  · intro i hne
    simp only [counterAt_set cf _ _ hi, hne, if_false]

/-- Witness of C5: digging cell `(9, 9)` holding chest code `15` with zero
counters. -/
theorem dig_undug_chest_witness :
    ∃ res, dig (emptyBoard.set 9 9 15) 9 9 zeroCounters = some res ∧
      cellAt res.board 9 9 = some (-15) ∧ counterAt res.chestsFound 4 = some 1 := by
  obtain ⟨res, h1, h2, _, ⟨old, h4, h5⟩, _⟩ :=
    dig_undug_chest (emptyBoard.set 9 9 15) zeroCounters 9 9 15 (by decide) (by decide)
      (by decide)
  have ho : old = 0 := by
    have h0 : counterAt zeroCounters (15 - 11) = some 0 := by decide
    rw [h0] at h4
    exact (Option.some.inj h4).symm
  subst ho
  exact ⟨res, h1, h2, h5⟩

/-- C6: for an in-grid target whose cell is `0`, `dig` sets that cell to
`-1`, leaves every other cell unchanged, leaves the counters unchanged and
prints no chest-completion line (it prints nothing). -/
theorem dig_empty_cell (b : Board) (cf : Counters) (row col : Int)
    (_hg : inGrid row col) (h0 : cellAt b row col = some 0) :
    ∃ res, dig b row col cf = some res ∧
      cellAt res.board row col = some (-1) ∧
      (∀ r1 c1 : Int, ¬ (r1 = row ∧ c1 = col) → cellAt res.board r1 c1 = cellAt b r1 c1) ∧
      res.chestsFound = cf ∧
      (∀ size : Int, Msg.chestDone size ∉ res.out) ∧ res.out = [] := by
  have hg := inGrid_of_cellAt h0
  refine ⟨_, dig_empty b cf h0, ?_, ?_, rfl, ?_, rfl⟩
  · simp only [cellAt_set b _ hg, and_self, if_true]
  · intro r1 c1 hne
    simp only [cellAt_set b _ hg, hne, if_false]
  · intro size hmem
    exact absurd hmem (List.not_mem_nil _)

/-- Witness of C6: digging cell `(3, 4)` of the empty board. -/
theorem dig_empty_cell_witness :
    ∃ res, dig emptyBoard 3 4 zeroCounters = some res ∧
      cellAt res.board 3 4 = some (-1) ∧ res.chestsFound = zeroCounters ∧ res.out = [] := by
  obtain ⟨res, h1, h2, _, h4, _, h6⟩ :=
    dig_empty_cell emptyBoard zeroCounters 3 4 (by decide) (by decide)
  exact ⟨res, h1, h2, h4, h6⟩

/-- C7: on a board with valid cell values, digging an in-grid cell a second
time leaves the board and the counters exactly as the first dig left them. -/
theorem dig_idempotent (b : Board) (cf : Counters) (row col : Int)
    (hv : validBoard b) (hg : inGrid row col) :
    ∃ s1, dig b row col cf = some s1 ∧
      ∃ s2, dig s1.board row col s1.chestsFound = some s2 ∧
        s2.board = s1.board ∧ s2.chestsFound = s1.chestsFound := by
  have hc := cellAt_of_inGrid b hg
  rcases hv (rowIdx row) (colIdx col) with h | h | h | h
  · rw [h] at hc
    refine ⟨_, dig_empty b cf hc, ?_⟩
    have h1 : cellAt (b.set (rowIdx row) (colIdx col) (-1)) row col = some (-1) := by
      simp only [cellAt_set b _ hg, and_self, if_true]
    exact ⟨_, dig_negative _ cf h1 (by decide), rfl, rfl⟩
  · rw [h] at hc
    refine ⟨_, dig_negative b cf hc (by decide), ?_⟩
    exact ⟨_, dig_negative b cf hc (by decide), rfl, rfl⟩
  · refine ⟨_, dig_chest b cf hc h, ?_⟩
    have h1 : cellAt (b.set (rowIdx row) (colIdx col) (-(b (rowIdx row) (colIdx col)))) row col
        = some (-(b (rowIdx row) (colIdx col))) := by
      simp only [cellAt_set b _ hg, and_self, if_true]
    exact ⟨_, dig_negative _ _ h1 (by omega), rfl, rfl⟩
  · refine ⟨_, dig_negative b cf hc (by omega), ?_⟩
    exact ⟨_, dig_negative b cf hc (by omega), rfl, rfl⟩

/-- Witness of C7: digging cell `(0, 0)` of the empty board twice. -/
theorem dig_idempotent_witness :
    ∃ s1, dig emptyBoard 0 0 zeroCounters = some s1 ∧
      ∃ s2, dig s1.board 0 0 s1.chestsFound = some s2 ∧
        s2.board = s1.board ∧ s2.chestsFound = s1.chestsFound :=
  dig_idempotent emptyBoard zeroCounters 0 0 (fun _ _ => Or.inl rfl) (by decide)

/-- C8, evaluated at a dug chest cell: chest `11` is placed horizontally at
`(0, 0)` on the empty board and cell `(0, 0)` is dug twice.  After the first
dig the cell holds `-11`, a dug chest cell; the second dig prints nothing, so
the line "You've already dug here!" is not reported although the cell is
already dug.  (For a cell holding `-1` the line is printed.) -/
theorem dig_dug_chest_prints_nothing :
    ((placeChest emptyBoard 0 0 11 0).bind
      (fun p => (dig p.2 0 0 zeroCounters).bind
        (fun r1 => (dig r1.board 0 0 r1.chestsFound).map
          (fun r2 => (cellAt r1.board 0 0, r2.out)))))
      = some (some (-11), []) ∧
    (dig (emptyBoard.set 0 0 (-1)) 0 0 zeroCounters).map (fun res => res.out)
      = some [Msg.alreadyDug] := by
  exact ⟨by decide, by decide⟩

/-- C10 fails at the target `(10, 0)`: `dig` on the empty board with zero
counters produces no result there, in particular no result that differs from
the already-dug no-op (return value `0`, notice printed) and hands back the
board and the counters. -/
theorem dig_no_outOfBounds_result :
    ¬ ∃ res, dig emptyBoard 10 0 zeroCounters = some res ∧
      (res.ret, res.out) ≠ (0, [Msg.alreadyDug]) ∧
      res.board = emptyBoard ∧ res.chestsFound = zeroCounters := by
  rintro ⟨res, h, _⟩
  have h1 : dig emptyBoard 10 0 zeroCounters = none := dig_outside _ _ (by decide)
  rw [h1] at h
  exact Option.noConfusion h

/-- C10 as amended: `dig` has no bounds check and no out-of-bounds result.
For a target outside the grid its first statement reads outside the board,
so the call has no defined result; and every result `dig` does return, for
any target, carries the return value `0`, the value of the already-dug
no-op. -/
theorem dig_unchecked_target (b : Board) (cf : Counters) (row col : Int)
    (h : ¬ inGrid row col) :
    dig b row col cf = none ∧
      ∀ (b1 : Board) (cf1 : Counters) (r1 c1 : Int) (res : DigResult),
        dig b1 r1 c1 cf1 = some res → res.ret = 0 ∧ inGrid r1 c1 := by
  refine ⟨dig_outside b cf h, ?_⟩
  intro b1 cf1 r1 c1 res hres
  refine ⟨dig_ret b1 cf1 r1 c1 res hres, ?_⟩
  by_contra hn
  rw [dig_outside b1 cf1 hn] at hres
  exact Option.noConfusion hres

/-- Witness of the amended C10 at the target `(10, 0)`. -/
theorem dig_unchecked_target_witness :
    dig emptyBoard 10 0 zeroCounters = none :=
  (dig_unchecked_target emptyBoard zeroCounters 10 0 (by decide)).1

/-! ## The win condition: claims C11 and C12 -/

theorem gameEnd_iff (b : Board) : gameEnd b = true ↔ ∀ i j, ¬ b i j > 0 := by
  simp only [gameEnd, List.all_eq_true, List.mem_finRange, true_implies, Bool.not_eq_true',
    decide_eq_false_iff_not]

theorem countCells_eq_zero_iff (b : Board) (v : Int) :
    countCells b v = 0 ↔ ∀ i j, b i j ≠ v := by
  unfold countCells
  rw [Finset.card_eq_zero, Finset.filter_eq_empty_iff]
  constructor
  · intro h i j
    exact h (Finset.mem_univ (i, j))
  · intro h p _
    exact h p.1 p.2

/-- On a board with valid cell values, `gameEnd` holds exactly when no cell
of a chest type `11..15` is left undug. -/
theorem gameEnd_iff_counts (b : Board) (hv : validBoard b) :
    gameEnd b = true ↔ ∀ t : Int, 11 ≤ t ∧ t ≤ 15 → countCells b t = 0 := by
  rw [gameEnd_iff]
  constructor
  · intro h t ht
    rw [countCells_eq_zero_iff]
    intro i j e
    have := h i j
    omega
  · intro h i j hpos
    rcases hv i j with e | e | e | e
    · omega
    · omega
    · exact (countCells_eq_zero_iff b _).mp (h (b i j) e) i j rfl
    · omega

theorem ctrIdx_cast (i : Fin 5) : ctrIdx (i : Int) = i := by
  apply Fin.ext
  have hi : (i : Nat) < 5 := i.isLt
  show (Int.toNat (i : Int)) % 5 = i
  rw [Int.toNat_ofNat]
  exact Nat.mod_eq_of_lt hi

/-- With counters that match the dug cells on a valid board carrying one
chest of each type, the board scan and the counters agree. -/
theorem gameEnd_iff_counters (b : Board) (cf : Counters)
    (hv : validBoard b) (hm : countersMatch b cf) (h1 : oneChestEach b) :
    gameEnd b = true ↔ ∀ i : Fin 5, cf i = 5 - (i : Int) := by
  rw [gameEnd_iff_counts b hv]
  constructor
  · intro h i
    have hi : (i : Nat) < 5 := i.isLt
    have ht : 11 ≤ (11 + (i : Int)) ∧ (11 + (i : Int)) ≤ 15 := by omega
    have m := hm _ ht
    have o := h1 _ ht
    have z := h _ ht
    have e : (11 + (i : Int)) - 11 = (i : Int) := by ring
    rw [e, ctrIdx_cast] at m
    rw [m]
    omega
  · intro h t ht
    have m := hm t ht
    have o := h1 t ht
    have c := h (ctrIdx (t - 11))
    have hval : ((ctrIdx (t - 11) : Fin 5) : Nat) = (t - 11).toNat % 5 := rfl
    rw [m] at c
    omega

/-- C11: `gameEnd` returns `true` if and only if no cell of the board holds a
positive value; its only argument is the board, the progress counters are not
read. -/
theorem gameEnd_true_iff_no_positive_cell (board : Board) :
    gameEnd board = true ↔ ¬ ∃ i j, board i j > 0 := by
  rw [gameEnd_iff]
  push_neg
  constructor
  · intro h i j
    have := h i j
    omega
  · intro h i j
    have := h i j
    omega

/-- C12 fails in two ways.  A chest type placed more than once: after five
accepted placements of chest `15` at `(0, 0)` to `(0, 4)` and a dig at each
of these cells, no undug chest cell remains (`gameEnd` is `true`) while
`chestsFound[0]` is `0`, not `5`, and `chestsFound[4]` is `5`, not `1`.  A
chest type accepted without being placed: the five requests `11..15` at
column `2147483647` are all accepted (`offsetCol + n` wraps) and place
nothing, so the dig phase starts with `gameEnd` `true` and all counters
`0`. -/
theorem gameEnd_without_full_counters :
    ((placementPhase emptyBoard
        [⟨15, 0, 0, 0⟩, ⟨15, 0, 0, 1⟩, ⟨15, 0, 0, 2⟩, ⟨15, 0, 0, 3⟩, ⟨15, 0, 0, 4⟩]).bind
      (fun b => digSeq b zeroCounters [(0, 0), (0, 1), (0, 2), (0, 3), (0, 4)])).map
        (fun s => (gameEnd s.1, s.2.1 0, s.2.1 4))
      = some (true, 0, 5) ∧
    ((placementPhase emptyBoard
        [⟨11, 0, 0, 2147483647⟩, ⟨12, 0, 0, 2147483647⟩, ⟨13, 0, 0, 2147483647⟩,
          ⟨14, 0, 0, 2147483647⟩, ⟨15, 0, 0, 2147483647⟩]).bind
      (fun b => digSeq b zeroCounters [])).map
        (fun s => (gameEnd s.1, s.2.1 0, s.2.1 4))
      = some (true, 0, 0) := by
  exact ⟨by decide, by decide⟩

/-- C12 as amended: take the board left by a placement phase of accepted
well-formed requests on the empty board that has placed each chest type
`11..15` exactly once, which is to say for each type exactly one accepted
request has its origin inside the grid; take zero counters and any sequence
of in-grid digs.  The run of digs is defined, and in the state it reaches
`gameEnd` is `true` if and only if `chestsFound[i] = 5 - i` for every `i` in
`0..4`. -/
theorem gameEnd_agrees_with_counters (ps : List Placement) (b : Board)
    (hwf : ∀ p ∈ ps, p.wellFormed)
    (honce : ∀ t : Int, 11 ≤ t ∧ t ≤ 15 →
      ((placedRequests ps).map Placement.chestType).count t = 1)
    (hb : placementPhase emptyBoard ps = some b)
    (qs : List (Int × Int)) (hin : ∀ q ∈ qs, inGrid q.1 q.2) :
    ∃ b2 cf2 out, digSeq b zeroCounters qs = some (b2, cf2, out) ∧
      (gameEnd b2 = true ↔ ∀ i : Fin 5, cf2 i = 5 - (i : Int)) := by
  obtain ⟨hv, hm, h1, _⟩ := placementPhase_board ps b hwf honce hb
  obtain ⟨b2, cf2, out, hs, v2, m2, o2, _⟩ := digSeq_inv qs b zeroCounters hv hm h1 hin
  exact ⟨b2, cf2, out, hs, gameEnd_iff_counters b2 cf2 v2 m2 o2⟩

/-- Witness of the amended C12: chests `11..15` placed horizontally in rows
`0..4`, then two digs. -/
theorem gameEnd_agrees_with_counters_witness :
    ∃ b, placementPhase emptyBoard
        [⟨11, 0, 0, 0⟩, ⟨12, 0, 1, 0⟩, ⟨13, 0, 2, 0⟩, ⟨14, 0, 3, 0⟩, ⟨15, 0, 4, 0⟩] = some b ∧
      ∃ b2 cf2 out, digSeq b zeroCounters [(4, 0), (9, 9)] = some (b2, cf2, out) ∧
        (gameEnd b2 = true ↔ ∀ i : Fin 5, cf2 i = 5 - (i : Int)) := by
  cases hb : placementPhase emptyBoard
      [⟨11, 0, 0, 0⟩, ⟨12, 0, 1, 0⟩, ⟨13, 0, 2, 0⟩, ⟨14, 0, 3, 0⟩, ⟨15, 0, 4, 0⟩] with
  | none =>
    have hsome : (placementPhase emptyBoard
      [⟨11, 0, 0, 0⟩, ⟨12, 0, 1, 0⟩, ⟨13, 0, 2, 0⟩, ⟨14, 0, 3, 0⟩, ⟨15, 0, 4, 0⟩]).isSome
        = true := by decide
    rw [hb] at hsome
    exact Bool.noConfusion hsome
  | some b =>
    exact ⟨b, rfl, gameEnd_agrees_with_counters _ b (by decide)
      (by
        intro t ht
        obtain ⟨lo, hi⟩ := ht
        interval_cases t <;> decide)
      hb [(4, 0), (9, 9)] (by decide)⟩

/-! ## The placement phase: claims C13 and C14 -/

/-- The placing loop over `k` cells that all hold `0` takes `k` cells away
from the cells holding `0`. -/
theorem writeCells_count_zero (dr dc x : Int)
    (hstep : (dr = 0 ∧ dc = 1) ∨ (dr = 1 ∧ dc = 0)) (hx : x ≠ 0) :
    ∀ (k : Nat) (b b1 : Board) (r c : Int),
      (∀ i : Nat, i < k → cellAt b (r + i * dr) (c + i * dc) = some 0) →
      writeCells dr dc x b r c k = some b1 →
      countCells b1 0 + k = countCells b 0 := by
  intro k
  induction k with
  | zero =>
    intro b b1 r c _ hw
    simp only [writeCells] at hw
    cases Option.some.inj hw
    rfl
  | succ k ih =>
    intro b b1 r c hz hw
    have z0 := hz 0 (Nat.succ_pos k)
    simp only [Nat.cast_zero, zero_mul, add_zero] at z0
    have g0 := inGrid_of_cellAt z0
    simp only [writeCells, setCell_of_inGrid b x g0] at hw
    have hb0 : b (rowIdx r) (colIdx c) = 0 := by
      rw [cellAt_of_inGrid b g0] at z0
      exact Option.some.inj z0
    have hz1 : ∀ i : Nat, i < k →
        cellAt (b.set (rowIdx r) (colIdx c) x) (r + dr + i * dr) (c + dc + i * dc) = some 0 := by
      intro i hi
      have := hz (i + 1) (Nat.succ_lt_succ hi)
      have e1 : r + dr + (i : Int) * dr = r + ((i + 1 : Nat) : Int) * dr := by
        push_cast; ring
      have e2 : c + dc + (i : Int) * dc = c + ((i + 1 : Nat) : Int) * dc := by
        push_cast; ring
      rw [cellAt_set b x g0, e1, e2, this]
      have hne : ¬ (r + ((i + 1 : Nat) : Int) * dr = r ∧ c + ((i + 1 : Nat) : Int) * dc = c) := by
        rintro ⟨a1, a2⟩
        push_cast at a1 a2
        rcases hstep with ⟨s1, s2⟩ | ⟨s1, s2⟩
        · subst s1 s2; omega
        · subst s1 s2; omega
      rw [if_neg hne]
    have hc := ih _ b1 _ _ hz1 hw
    have hs := countCells_set b (rowIdx r) (colIdx c) x 0
    rw [hb0] at hs
    simp only [hx, if_true, if_false, add_zero] at hs
    omega

/-- An accepted placement from an origin inside the grid, orientation `0` or
`1`, is a run of the check loop answering `true` followed by a run of the
placing loop. -/
theorem placeChest_true_loops (b b1 : Board) (row col x o : Int) (ho : o = 0 ∨ o = 1)
    (hg : inGrid row col) (hx : -2147483622 ≤ x ∧ x ≤ 2147483647)
    (h : placeChest b row col x o = some (true, b1)) :
    ∃ dr dc : Int, ((dr = 0 ∧ dc = 1) ∨ (dr = 1 ∧ dc = 0)) ∧
      checkCells b dr dc row col (16 - x).toNat = some true ∧
      writeCells dr dc x b row col (16 - x).toNat = some b1 := by
  rcases ho with ho | ho
  · subst ho
    refine ⟨0, 1, Or.inl ⟨rfl, rfl⟩, ?_⟩
    rw [placeChest_horizontal b row col x hg hx] at h
    split at h
    · exact absurd (congrArg Prod.fst (Option.some.inj h)) Bool.false_ne_true
    · split at h
      · exact Option.noConfusion h
      · exact absurd (congrArg Prod.fst (Option.some.inj h)) Bool.false_ne_true
      · rename_i hchk
        refine ⟨hchk, ?_⟩
        split at h
        · exact Option.noConfusion h
        · rename_i a1 hw
          rw [hw]
          exact congrArg some (congrArg Prod.snd (Option.some.inj h))
  · subst ho
    refine ⟨1, 0, Or.inr ⟨rfl, rfl⟩, ?_⟩
    rw [placeChest_vertical b row col x hg hx] at h
    split at h
    · exact absurd (congrArg Prod.fst (Option.some.inj h)) Bool.false_ne_true
    · split at h
      · exact Option.noConfusion h
      · exact absurd (congrArg Prod.fst (Option.some.inj h)) Bool.false_ne_true
      · rename_i hchk
        refine ⟨hchk, ?_⟩
        split at h
        · exact Option.noConfusion h
        · rename_i a1 hw
          rw [hw]
          exact congrArg some (congrArg Prod.snd (Option.some.inj h))

/-- An accepted placement of a chest type in `11..15` from an origin inside
the grid takes `16 - x` cells away from the cells holding `0`. -/
theorem placeChest_true_zero (b b1 : Board) (row col x o : Int)
    (hx : 11 ≤ x ∧ x ≤ 15) (ho : o = 0 ∨ o = 1) (hg : inGrid row col)
    (h : placeChest b row col x o = some (true, b1)) :
    countCells b1 0 + (16 - x).toNat = countCells b 0 := by
  obtain ⟨dr, dc, hstep, hchk, hw⟩ :=
    placeChest_true_loops b b1 row col x o ho hg (by omega) h
  exact writeCells_count_zero dr dc x hstep (by omega) _ b b1 row col
    (checkCells_true_inv b dr dc _ row col hchk) hw

/-- The cells holding `0` after a placement phase: each accepted request
with an origin inside the grid has taken the cells of its chest. -/
theorem placementPhase_zero :
    ∀ (ps : List Placement) (b b1 : Board), (∀ p ∈ ps, p.wellFormed) →
      placementPhase b ps = some b1 →
      countCells b1 0 + chestCellsOf (placedRequests ps) = countCells b 0 := by
  intro ps
  induction ps with
  | nil =>
    intro b b1 _ h
    simp only [placementPhase] at h
    cases Option.some.inj h
    rfl
  | cons p ps ih =>
    intro b b1 hwf h
    have hp := hwf p (List.mem_cons_self p ps)
    simp only [placementPhase, placeChestChecker] at h
    split at h
    · rename_i b2 hpl
      have r := ih b2 b1 (fun p1 h1 => hwf p1 (List.mem_cons_of_mem p h1)) h
      by_cases hg : inGrid p.rowLocation p.colLocation
      · have z := placeChest_true_zero b b2 _ _ _ _ ⟨hp.1, hp.2.1⟩ hp.2.2 hg hpl
        rw [placedRequests_cons_in p ps hg]
        have e : chestCellsOf (p :: placedRequests ps)
            = (16 - p.chestType).toNat + chestCellsOf (placedRequests ps) := by
          simp only [chestCellsOf, List.map_cons, List.sum_cons]
        omega
      · have e := placeChest_true_outside b b2 _ _ _ _ ⟨hp.1, hp.2.1⟩ hp.2.2 hg hpl
        subst e
        rw [placedRequests_cons_out p ps hg]
        exact r
    · exact Option.noConfusion h

theorem countCells_emptyBoard_zero : countCells emptyBoard 0 = 100 := by
  decide

/-- Number of cells holding `0` in row `i`. -/
theorem countCells_zero_rows (b : Board) :
    countCells b 0 = ∑ i : Fin krows, (Finset.univ.filter (fun j : Fin kcols => b i j = 0)).card := by
  unfold countCells
  rw [Finset.card_filter, Fintype.sum_prod_type]
  apply Finset.sum_congr rfl
  intro i _
  rw [Finset.card_filter]

theorem countCells_zero_cols (b : Board) :
    countCells b 0 = ∑ j : Fin kcols, (Finset.univ.filter (fun i : Fin krows => b i j = 0)).card := by
  unfold countCells
  rw [Finset.card_filter, Fintype.sum_prod_type_right]
  apply Finset.sum_congr rfl
  intro j _
  rw [Finset.card_filter]

/-- Ten numbers that add up to more than `80` are not all below `9`. -/
theorem exists_large_of_sum (g : Fin 10 → Nat) (h : 80 < ∑ i : Fin 10, g i) :
    ∃ i, 9 ≤ g i := by
  by_contra hn
  push_neg at hn
  have hle : ∑ i : Fin 10, g i ≤ ∑ _i : Fin 10, 8 :=
    Finset.sum_le_sum (fun i _ => Nat.le_of_lt_succ (hn i))
  simp only [Finset.sum_const, Finset.card_univ, Fintype.card_fin, smul_eq_mul] at hle
  omega

/-- A line of ten cells with at least nine cells holding `0` has its first
five or its last five cells all holding `0`. -/
theorem free_half_of_line (f : Fin 10 → Int)
    (h : 9 ≤ (Finset.univ.filter (fun j : Fin 10 => f j = 0)).card) :
    (∀ j : Fin 10, (j : Nat) < 5 → f j = 0) ∨ (∀ j : Fin 10, 5 ≤ (j : Nat) → f j = 0) := by
  by_contra hn
  push_neg at hn
  obtain ⟨⟨j1, hj1, n1⟩, ⟨j2, hj2, n2⟩⟩ := hn
  have hne : j2 ≠ j1 := by
    intro e
    rw [e] at hj2
    omega
  have hsub : Finset.univ.filter (fun j : Fin 10 => f j = 0)
      ⊆ (Finset.univ.erase j1).erase j2 := by
    intro j hj
    have hz : f j = 0 := (Finset.mem_filter.mp hj).2
    refine Finset.mem_erase.mpr ⟨?_, Finset.mem_erase.mpr ⟨?_, Finset.mem_univ j⟩⟩
    · intro e; exact n2 (e ▸ hz)
    · intro e; exact n1 (e ▸ hz)
  have hcard := Finset.card_le_card hsub
  have h2 : ((Finset.univ.erase j1).erase j2).card = 8 := by
    rw [Finset.card_erase_of_mem (Finset.mem_erase.mpr ⟨hne, Finset.mem_univ j2⟩),
      Finset.card_erase_of_mem (Finset.mem_univ j1)]
    rfl
  omega

/-- A list of well-formed requests places at most five cells per request,
and fewer when one of the requests is not of type `11`. -/
theorem chestCellsOf_le (ps : List Placement) (hwf : ∀ p ∈ ps, p.wellFormed) :
    chestCellsOf ps ≤ 5 * ps.length ∧
      ((∃ p ∈ ps, p.chestType ≠ 11) → chestCellsOf ps + 1 ≤ 5 * ps.length) := by
  induction ps with
  | nil =>
    refine ⟨Nat.le_refl _, ?_⟩
    rintro ⟨p, hp, _⟩
    exact absurd hp (List.not_mem_nil p)
  | cons p ps ih =>
    have hp := hwf p (List.mem_cons_self p ps)
    have hp1 : 11 ≤ p.chestType := hp.1
    have hp2 : p.chestType ≤ 15 := hp.2.1
    obtain ⟨i1, i2⟩ := ih (fun p1 h1 => hwf p1 (List.mem_cons_of_mem p h1))
    have e : chestCellsOf (p :: ps) = (16 - p.chestType).toNat + chestCellsOf ps := by
      simp only [chestCellsOf, List.map_cons, List.sum_cons]
    rw [e, List.length_cons]
    constructor
    · omega
    · rintro ⟨q, hq, hne⟩
      rcases List.mem_cons.mp hq with e1 | e1
      · subst e1
        omega
      · have := i2 ⟨q, e1, hne⟩
        omega

/-- On a board with more than `80` cells holding `0`, every chest type in
`11..15` can be placed in either orientation at some origin of the grid. -/
theorem placeChest_candidate (b : Board) (hz : 80 < countCells b 0) (x o : Int)
    (hx : 11 ≤ x ∧ x ≤ 15) (ho : o = 0 ∨ o = 1) :
    ∃ row col : Int, inGrid row col ∧ ∃ b1, placeChest b row col x o = some (true, b1) := by
  rcases ho with ho | ho
  · subst ho
    rw [countCells_zero_rows] at hz
    obtain ⟨i, hi⟩ := exists_large_of_sum _ hz
    have hil : (i : Nat) < 10 := i.isLt
    rcases free_half_of_line (fun j => b i j) hi with hfree | hfree
    · obtain ⟨b1, h1, _⟩ := placeChest_free b (i : Int) 0 x 0 hx (Or.inl rfl) (by
        intro r1 c1 hs
        simp only [inSpan, if_true] at hs
        obtain ⟨e1, lo, hi1⟩ := hs
        have hc : c1 = (((⟨c1.toNat, by omega⟩ : Fin 10) : Nat) : Int) := by
          simp only []
          omega
        rw [e1, hc, cellAt_cast, hfree _ (by simp only []; omega)])
      exact ⟨i, 0, inGrid_iff.mpr (by omega), b1, h1⟩
    · obtain ⟨b1, h1, _⟩ := placeChest_free b (i : Int) 5 x 0 hx (Or.inl rfl) (by
        intro r1 c1 hs
        simp only [inSpan, if_true] at hs
        obtain ⟨e1, lo, hi1⟩ := hs
        have hc : c1 = (((⟨c1.toNat, by omega⟩ : Fin 10) : Nat) : Int) := by
          simp only []
          omega
        rw [e1, hc, cellAt_cast, hfree _ (by simp only []; omega)])
      exact ⟨i, 5, inGrid_iff.mpr (by omega), b1, h1⟩
  · subst ho
    rw [countCells_zero_cols] at hz
    obtain ⟨j, hj⟩ := exists_large_of_sum _ hz
    have hjl : (j : Nat) < 10 := j.isLt
    rcases free_half_of_line (fun i => b i j) hj with hfree | hfree
    · obtain ⟨b1, h1, _⟩ := placeChest_free b 0 (j : Int) x 1 hx (Or.inr rfl) (by
        intro r1 c1 hs
        simp only [inSpan, one_ne_zero, if_false] at hs
        obtain ⟨e1, lo, hi1⟩ := hs
        have hr : r1 = (((⟨r1.toNat, by omega⟩ : Fin 10) : Nat) : Int) := by
          simp only []
          omega
        rw [e1, hr, cellAt_cast, hfree _ (by simp only []; omega)])
      exact ⟨0, j, inGrid_iff.mpr (by omega), b1, h1⟩
    · obtain ⟨b1, h1, _⟩ := placeChest_free b 5 (j : Int) x 1 hx (Or.inr rfl) (by
        intro r1 c1 hs
        simp only [inSpan, one_ne_zero, if_false] at hs
        obtain ⟨e1, lo, hi1⟩ := hs
        have hr : r1 = (((⟨r1.toNat, by omega⟩ : Fin 10) : Nat) : Int) := by
          simp only []
          omega
        rw [e1, hr, cellAt_cast, hfree _ (by simp only []; omega)])
      exact ⟨5, j, inGrid_iff.mpr (by omega), b1, h1⟩

/-- A refused request leaves the board as it was. -/
theorem placeChest_false_board (b b1 : Board) (row col x o : Int)
    (h : placeChest b row col x o = some (false, b1)) : b1 = b := by
  simp only [placeChest] at h
  split at h
  · split at h
    · exact (congrArg Prod.snd (Option.some.inj h)).symm
    · split at h
      · exact Option.noConfusion h
      · exact (congrArg Prod.snd (Option.some.inj h)).symm
      · split at h
        · exact Option.noConfusion h
        · exact Bool.noConfusion (congrArg Prod.fst (Option.some.inj h))
  · split at h
    · split at h
      · exact (congrArg Prod.snd (Option.some.inj h)).symm
      · split at h
        · exact Option.noConfusion h
        · exact (congrArg Prod.snd (Option.some.inj h)).symm
        · split at h
          · exact Option.noConfusion h
          · exact Bool.noConfusion (congrArg Prod.fst (Option.some.inj h))
    · exact Bool.noConfusion (congrArg Prod.fst (Option.some.inj h))

/-- On a board that refuses chest `x` in orientation `o` at every origin of
the grid, the retry loop of `aiInput` achieves no placement, however many
pairs of coordinates in `0..9` it draws. -/
theorem aiInput_refused_everywhere (draws : Nat → Int × Int) (x o : Int) (b : Board)
    (hdraw : ∀ k, inGrid (draws k).1 (draws k).2)
    (hno : ∀ row col : Int, inGrid row col →
      (placeChest b row col x o).map Prod.fst = some false) :
    ∀ (fuel k : Nat), aiInput draws x o b k fuel = none := by
  intro fuel
  induction fuel with
  | zero => intro k; rfl
  | succ f ih =>
    intro k
    have h := hno (draws k).1 (draws k).2 (hdraw k)
    cases hp : placeChest b (draws k).1 (draws k).2 x o with
    | none =>
      rw [hp] at h
      exact Option.noConfusion h
    | some res =>
      obtain ⟨ok, b1⟩ := res
      rw [hp] at h
      have hok : ok = false := Option.some.inj h
      subst hok
      have e : b1 = b := placeChest_false_board b b1 _ _ x o hp
      subst e
      simp only [aiInput, placeChestChecker, hp]
      exact ih (k + 1)

/-- After chest `11` placed vertically at `(0, 4)`, `(0, 9)`, `(5, 4)` and
`(5, 9)`, when `aiInput` draws chest type `11` and the horizontal
orientation, its retry loop achieves no placement, however many pairs of
coordinates in `0..9` it draws: the loop does not end. -/
theorem aiInput_retry_without_end (b : Board)
    (hb : placementPhase emptyBoard
      [⟨11, 1, 0, 4⟩, ⟨11, 1, 0, 9⟩, ⟨11, 1, 5, 4⟩, ⟨11, 1, 5, 9⟩] = some b)
    (draws : Nat → Int × Int) (hdraw : ∀ k, inGrid (draws k).1 (draws k).2)
    (fuel k : Nat) : aiInput draws 11 0 b k fuel = none := by
  refine aiInput_refused_everywhere draws 11 0 b hdraw ?_ fuel k
  intro row col hg
  have hg1 := inGrid_iff.mp hg
  have hall : ∀ i j : Fin 10,
      ((placementPhase emptyBoard
          [⟨11, 1, 0, 4⟩, ⟨11, 1, 0, 9⟩, ⟨11, 1, 5, 4⟩, ⟨11, 1, 5, 9⟩]).bind
        (fun b => placeChest b i j 11 0)).map Prod.fst = some false := by
    decide
  have h := hall ⟨row.toNat, by omega⟩ ⟨col.toNat, by omega⟩
  rw [hb] at h
  have er : ((row.toNat : Nat) : Int) = row := by omega
  have ec : ((col.toNat : Nat) : Int) = col := by omega
  simp only [Option.some_bind, er, ec] at h
  exact h

/-- C14 fails on a board reached by four accepted placements: with chest
`11` placed vertically at `(0, 4)`, `(0, 9)`, `(5, 4)` and `(5, 9)`, columns
`4` and `9` are taken in every row, and a further chest `11` (five cells)
placed horizontally is refused at every origin of the grid: the retry loop
of `aiInput`, which draws new coordinates only, has no succeeding candidate
and does not end (`aiInput_retry_without_end`). -/
theorem aiInput_without_candidate :
    ¬ ∃ i j : Fin 10,
      ((placementPhase emptyBoard
          [⟨11, 1, 0, 4⟩, ⟨11, 1, 0, 9⟩, ⟨11, 1, 5, 4⟩, ⟨11, 1, 5, 9⟩]).bind
        (fun b => placeChest b i j 11 0)).map Prod.fst ≠ some false := by
  decide

/-- As long as the placed chests take fewer than `20` cells, every chest type
in `11..15` can be placed in either orientation at some origin of the
grid. -/
theorem aiInput_has_candidate (ps : List Placement) (b : Board)
    (hwf : ∀ p ∈ ps, p.wellFormed)
    (hcells : chestCellsOf (placedRequests ps) < 20)
    (hb : placementPhase emptyBoard ps = some b)
    (x o : Int) (hx : 11 ≤ x ∧ x ≤ 15) (ho : o = 0 ∨ o = 1) :
    ∃ row col : Int, inGrid row col ∧ ∃ b1, placeChest b row col x o = some (true, b1) := by
  have z := placementPhase_zero ps emptyBoard b hwf hb
  rw [countCells_emptyBoard_zero] at z
  exact placeChest_candidate b (by omega) x o hx ho

/-- An instance of `aiInput_has_candidate`: after chests `11`, `12`, `13` and
`14` placed horizontally in rows `0..3`, a chest `11` to be placed
vertically. -/
theorem aiInput_has_candidate_witness :
    ∃ b, placementPhase emptyBoard
        [⟨11, 0, 0, 0⟩, ⟨12, 0, 1, 0⟩, ⟨13, 0, 2, 0⟩, ⟨14, 0, 3, 0⟩] = some b ∧
      ∃ row col : Int, inGrid row col ∧ ∃ b1, placeChest b row col 11 1 = some (true, b1) := by
  cases hb : placementPhase emptyBoard
      [⟨11, 0, 0, 0⟩, ⟨12, 0, 1, 0⟩, ⟨13, 0, 2, 0⟩, ⟨14, 0, 3, 0⟩] with
  | none =>
    have hsome : (placementPhase emptyBoard
      [⟨11, 0, 0, 0⟩, ⟨12, 0, 1, 0⟩, ⟨13, 0, 2, 0⟩, ⟨14, 0, 3, 0⟩]).isSome = true := by
      decide
    rw [hb] at hsome
    exact Bool.noConfusion hsome
  | some b =>
    exact ⟨b, rfl, aiInput_has_candidate _ b (by decide) (by decide) hb 11 1
      (by decide) (Or.inr rfl)⟩

/-! ## The dig loop: claims C15 to C17 -/

/-- What a round leaves behind.  The AI board is the one left by the human's
dig.  If it is fully found the AI has not dug, and user board and AI counters
are as before; otherwise the AI has dug once, at its target. -/
theorem digRound_spec (g g1 : Game) (h a : Int × Int) (dug : List (Int × Int))
    (hr : digRound g h a = some (g1, dug)) :
    ∃ r1, dig g.aiBoard h.1 h.2 g.userChestsFound = some r1 ∧
      g1.aiBoard = r1.board ∧ g1.userChestsFound = r1.chestsFound ∧
      ((gameEnd r1.board = true ∧ dug = [] ∧ g1.userBoard = g.userBoard ∧
          g1.aiChestsFound = g.aiChestsFound) ∨
        (gameEnd r1.board = false ∧ dug = [a] ∧
          ∃ r2, dig g.userBoard a.1 a.2 g.aiChestsFound = some r2 ∧
            g1.userBoard = r2.board ∧ g1.aiChestsFound = r2.chestsFound)) := by
  unfold digRound at hr
  split at hr
  · exact Option.noConfusion hr
  · rename_i r1 hd1
    refine ⟨r1, hd1, ?_⟩
    by_cases he : gameEnd r1.board = true
    · simp only [he, Bool.not_true, Bool.false_eq_true, if_false] at hr
      have e := Option.some.inj hr
      have e1 := congrArg Prod.fst e
      have e2 := congrArg Prod.snd e
      simp only at e1 e2
      subst e1
      exact ⟨rfl, rfl, Or.inl ⟨he, e2.symm, rfl, rfl⟩⟩
    · have hf : gameEnd r1.board = false := by
        cases hg : gameEnd r1.board with
        | true => exact absurd hg he
        | false => rfl
      simp only [hf, Bool.not_false, if_true] at hr
      split at hr
      · exact Option.noConfusion hr
      · rename_i r2 hd2
        have e := Option.some.inj hr
        have e1 := congrArg Prod.fst e
        have e2 := congrArg Prod.snd e
        simp only at e1 e2
        subst e1
        exact ⟨rfl, rfl, Or.inr ⟨hf, e2.symm, r2, hd2, rfl, rfl⟩⟩

/-- Once a board is fully found the loop exits with the state as it is. -/
theorem digLoop_ended (ai : Nat → Int × Int) (g : Game) (hs : List (Int × Int)) (k : Nat)
    (h : gameEnd g.userBoard = true ∨ gameEnd g.aiBoard = true) :
    digLoop ai g hs k = some g := by
  have hc : (!gameEnd g.userBoard && !gameEnd g.aiBoard) = false := by
    rcases h with h | h <;> simp [h]
  cases hs with
  | nil => simp only [digLoop, hc, Bool.false_eq_true, if_false]
  | cons q qs => simp only [digLoop, hc, Bool.false_eq_true, if_false]

/-- From a state in which neither board is fully found, the loop can only
exit in a state in which exactly one board is fully found. -/
theorem digLoop_exit_state (ai : Nat → Int × Int) :
    ∀ (hs : List (Int × Int)) (g gf : Game) (k : Nat),
      gameEnd g.userBoard = false → gameEnd g.aiBoard = false →
      digLoop ai g hs k = some gf →
      (gameEnd gf.userBoard = true ∧ gameEnd gf.aiBoard = false) ∨
        (gameEnd gf.userBoard = false ∧ gameEnd gf.aiBoard = true) := by
  intro hs
  induction hs with
  | nil =>
    intro g gf k hu ha h
    simp only [digLoop, hu, ha, Bool.not_false, Bool.and_self, if_true] at h
    exact Option.noConfusion h
  | cons q qs ih =>
    intro g gf k hu ha h
    simp only [digLoop, hu, ha, Bool.not_false, Bool.and_self, if_true] at h
    split at h
    · exact Option.noConfusion h
    · rename_i g1 dug hr
      obtain ⟨r1, _, eb, _, hcase⟩ := digRound_spec g g1 q (ai k) dug hr
      rcases hcase with ⟨he, _, eu, _⟩ | ⟨he, _, r2, _, eu, _⟩
      · have hend : gameEnd g1.aiBoard = true := by rw [eb]; exact he
        rw [digLoop_ended ai g1 qs _ (Or.inr hend)] at h
        cases Option.some.inj h
        right
        exact ⟨by rw [eu]; exact hu, hend⟩
      · have hnot : gameEnd g1.aiBoard = false := by rw [eb]; exact he
        cases hu1 : gameEnd g1.userBoard with
        | true =>
          rw [digLoop_ended ai g1 qs _ (Or.inl hu1)] at h
          cases Option.some.inj h
          left
          exact ⟨hu1, hnot⟩
        | false => exact ih g1 gf _ hu1 hnot h

theorem digSeq_cons (b : Board) (cf : Counters) (q : Int × Int) (qs : List (Int × Int))
    (r : DigResult) (b2 : Board) (cf2 : Counters) (out : List Msg)
    (hd : dig b q.1 q.2 cf = some r)
    (hs : digSeq r.board r.chestsFound qs = some (b2, cf2, out)) :
    digSeq b cf (q :: qs) = some (b2, cf2, r.out ++ out) := by
  simp only [digSeq, hd, hs]

theorem digSeq_cons_board (b : Board) (cf : Counters) (q : Int × Int)
    (qs : List (Int × Int)) (r : DigResult) (s : Board × Counters × List Msg)
    (hd : dig b q.1 q.2 cf = some r) (hs : digSeq b cf (q :: qs) = some s) :
    ∃ s1, digSeq r.board r.chestsFound qs = some s1 ∧ s.1 = s1.1 := by
  simp only [digSeq, hd] at hs
  split at hs
  · exact Option.noConfusion hs
  · rename_i b2 cf2 out hrest
    refine ⟨_, hrest, ?_⟩
    rw [← Option.some.inj hs]

/-- What the dig loop has done when it exits, from a state in which neither
board is fully found.  It has run `m` rounds, `m` at least one: the AI board
and the human's counters are what the first `m` human targets, dug in order,
leave; the user board and the AI's counters are what the first `j` AI
targets leave, where `j = m` when the user board is the one fully found and
`j = m - 1` when it is the AI board; exactly one board is fully found; and no
board was fully found after fewer digs. -/
theorem digLoop_trace (ai : Nat → Int × Int) :
    ∀ (hs : List (Int × Int)) (g gf : Game) (k : Nat),
      gameEnd g.userBoard = false → gameEnd g.aiBoard = false →
      digLoop ai g hs k = some gf →
      ∃ (m j : Nat) (out1 out2 : List Msg),
        1 ≤ m ∧ m ≤ hs.length ∧
        digSeq g.aiBoard g.userChestsFound (hs.take m)
          = some (gf.aiBoard, gf.userChestsFound, out1) ∧
        digSeq g.userBoard g.aiChestsFound (aiTargets ai k j)
          = some (gf.userBoard, gf.aiChestsFound, out2) ∧
        ((j = m ∧ gameEnd gf.userBoard = true ∧ gameEnd gf.aiBoard = false) ∨
          (j + 1 = m ∧ gameEnd gf.userBoard = false ∧ gameEnd gf.aiBoard = true)) ∧
        (∀ m1 : Nat, m1 < m → ∀ s, digSeq g.aiBoard g.userChestsFound (hs.take m1) = some s →
          gameEnd s.1 = false) ∧
        (∀ j1 : Nat, j1 < j → ∀ s,
          digSeq g.userBoard g.aiChestsFound (aiTargets ai k j1) = some s →
          gameEnd s.1 = false) := by
  intro hs
  induction hs with
  | nil =>
    intro g gf k hu ha h
    simp only [digLoop, hu, ha, Bool.not_false, Bool.and_self, if_true] at h
    exact Option.noConfusion h
  | cons q qs ih =>
    intro g gf k hu ha h
    simp only [digLoop, hu, ha, Bool.not_false, Bool.and_self, if_true] at h
    split at h
    · exact Option.noConfusion h
    · rename_i g1 dug hr
      obtain ⟨r1, hd1, eb, ec, hcase⟩ := digRound_spec g g1 q (ai k) dug hr
      have hminA0 : ∀ s, digSeq g.aiBoard g.userChestsFound [] = some s →
          gameEnd s.1 = false := by
        intro s hs0
        simp only [digSeq] at hs0
        rw [← Option.some.inj hs0]
        exact ha
      have hminU0 : ∀ s, digSeq g.userBoard g.aiChestsFound [] = some s →
          gameEnd s.1 = false := by
        intro s hs0
        simp only [digSeq] at hs0
        rw [← Option.some.inj hs0]
        exact hu
      rcases hcase with ⟨he, hdug, eu, eac⟩ | ⟨he, hdug, r2, hd2, eu, eac⟩
      · have hend : gameEnd g1.aiBoard = true := by rw [eb]; exact he
        rw [digLoop_ended ai g1 qs _ (Or.inr hend)] at h
        have e : g1 = gf := Option.some.inj h
        subst e
        have hA : digSeq r1.board r1.chestsFound []
            = some (g1.aiBoard, g1.userChestsFound, []) := by
          rw [eb, ec]; rfl
        have hU : digSeq g.userBoard g.aiChestsFound (aiTargets ai k 0)
            = some (g1.userBoard, g1.aiChestsFound, []) := by
          rw [eu, eac]; rfl
        refine ⟨1, 0, r1.out ++ [], [], le_refl 1, ?_,
          digSeq_cons _ _ q [] r1 _ _ _ hd1 hA, hU,
          Or.inr ⟨rfl, by rw [eu]; exact hu, hend⟩, ?_, ?_⟩
        · simp only [List.length_cons]; omega
        · intro m1 hm1 s hs1
          have e0 : m1 = 0 := by omega
          subst e0
          exact hminA0 s hs1
        · intro j1 hj1
          exact absurd hj1 (Nat.not_lt_zero j1)
      · have hnot : gameEnd g1.aiBoard = false := by rw [eb]; exact he
        rw [hdug] at h
        simp only [List.length_singleton] at h
        cases hu1 : gameEnd g1.userBoard with
        | true =>
          rw [digLoop_ended ai g1 qs _ (Or.inl hu1)] at h
          have e : g1 = gf := Option.some.inj h
          subst e
          have hA : digSeq r1.board r1.chestsFound []
              = some (g1.aiBoard, g1.userChestsFound, []) := by
            rw [eb, ec]; rfl
          have hU : digSeq r2.board r2.chestsFound []
              = some (g1.userBoard, g1.aiChestsFound, []) := by
            rw [eu, eac]; rfl
          refine ⟨1, 1, r1.out ++ [], r2.out ++ [], le_refl 1, ?_,
            digSeq_cons _ _ q [] r1 _ _ _ hd1 hA,
            digSeq_cons _ _ (ai k) [] r2 _ _ _ hd2 hU,
            Or.inl ⟨rfl, hu1, hnot⟩, ?_, ?_⟩
          · simp only [List.length_cons]; omega
          · intro m1 hm1 s hs1
            have e0 : m1 = 0 := by omega
            subst e0
            exact hminA0 s hs1
          · intro j1 hj1 s hs1
            have e0 : j1 = 0 := by omega
            subst e0
            exact hminU0 s hs1
        | false =>
          obtain ⟨m, j, o1, o2, hm1, hm2, hs1, hs2, hdisj, hminA, hminU⟩ :=
            ih g1 gf (k + 1) hu1 hnot h
          rw [eb, ec] at hs1
          rw [eu, eac] at hs2
          refine ⟨m + 1, j + 1, r1.out ++ o1, r2.out ++ o2, by omega, ?_,
            digSeq_cons _ _ q _ r1 _ _ _ hd1 hs1,
            digSeq_cons _ _ (ai k) _ r2 _ _ _ hd2 hs2, ?_, ?_, ?_⟩
          · simp only [List.length_cons]; omega
          · rcases hdisj with ⟨e1, e2, e3⟩ | ⟨e1, e2, e3⟩
            · exact Or.inl ⟨by omega, e2, e3⟩
            · exact Or.inr ⟨by omega, e2, e3⟩
          · intro m1 hm s hs0
            cases m1 with
            | zero => exact hminA0 s hs0
            | succ i =>
              obtain ⟨s1, hrest, e⟩ := digSeq_cons_board _ _ q _ r1 s hd1 hs0
              rw [e]
              exact hminA i (by omega) s1 (by rw [eb, ec]; exact hrest)
          · intro j1 hj s hs0
            cases j1 with
            | zero => exact hminU0 s hs0
            | succ i =>
              obtain ⟨s1, hrest, e⟩ := digSeq_cons_board _ _ (ai k) _ r2 s hd2 hs0
              rw [e]
              exact hminU i (by omega) s1 (by rw [eu, eac]; exact hrest)

/-- C15: from a dig-phase state in which both boards hold an undug chest,
whatever targets the human and the AI supply, when the loop exits it has run
`m` rounds, `m` at least one; the AI board is the start board with the first
`m` human targets dug, the user board is the start board with the first `j`
AI targets dug, `j = m` or `j = m - 1`; exactly one of the two boards is
fully found, and neither was fully found after fewer digs; the AI is
announced if and only if the fully found board is the user board (then the
AI has dug `m` times), and the user is announced if and only if it is the AI
board (then the AI has dug `m - 1` times). -/
theorem digLoop_winner (ai : Nat → Int × Int) (hs : List (Int × Int)) (g gf : Game) (k : Nat)
    (hu : gameEnd g.userBoard = false) (ha : gameEnd g.aiBoard = false)
    (hexit : digLoop ai g hs k = some gf) :
    (∃ (m j : Nat) (out1 out2 : List Msg),
      1 ≤ m ∧ m ≤ hs.length ∧
      digSeq g.aiBoard g.userChestsFound (hs.take m)
        = some (gf.aiBoard, gf.userChestsFound, out1) ∧
      digSeq g.userBoard g.aiChestsFound (aiTargets ai k j)
        = some (gf.userBoard, gf.aiChestsFound, out2) ∧
      ((j = m ∧ gameEnd gf.userBoard = true ∧ gameEnd gf.aiBoard = false ∧
          announce gf = Winner.AI) ∨
        (j + 1 = m ∧ gameEnd gf.userBoard = false ∧ gameEnd gf.aiBoard = true ∧
          announce gf = Winner.User)) ∧
      (∀ m1 : Nat, m1 < m → ∀ s, digSeq g.aiBoard g.userChestsFound (hs.take m1) = some s →
        gameEnd s.1 = false) ∧
      (∀ j1 : Nat, j1 < j → ∀ s,
        digSeq g.userBoard g.aiChestsFound (aiTargets ai k j1) = some s →
        gameEnd s.1 = false)) ∧
    ((gameEnd gf.userBoard = true ∧ gameEnd gf.aiBoard = false) ∨
        (gameEnd gf.userBoard = false ∧ gameEnd gf.aiBoard = true)) ∧
    (announce gf = Winner.AI ↔ gameEnd gf.userBoard = true) ∧
    (announce gf = Winner.User ↔ gameEnd gf.aiBoard = true) := by
  obtain ⟨m, j, o1, o2, hm1, hm2, hs1, hs2, hdisj, hminA, hminU⟩ :=
    digLoop_trace ai hs g gf k hu ha hexit
  have hone : (gameEnd gf.userBoard = true ∧ gameEnd gf.aiBoard = false) ∨
      (gameEnd gf.userBoard = false ∧ gameEnd gf.aiBoard = true) := by
    rcases hdisj with ⟨_, e2, e3⟩ | ⟨_, e2, e3⟩
    · exact Or.inl ⟨e2, e3⟩
    · exact Or.inr ⟨e2, e3⟩
  refine ⟨⟨m, j, o1, o2, hm1, hm2, hs1, hs2, ?_, hminA, hminU⟩, hone, ?_, ?_⟩
  · rcases hdisj with ⟨e1, e2, e3⟩ | ⟨e1, e2, e3⟩
    · exact Or.inl ⟨e1, e2, e3, by simp [announce, e2]⟩
    · exact Or.inr ⟨e1, e2, e3, by simp [announce, e2]⟩
  · rcases hone with ⟨h1, _⟩ | ⟨h1, _⟩ <;> simp [announce, h1]
  · rcases hone with ⟨h1, h2⟩ | ⟨h1, h2⟩ <;> simp [announce, h1, h2]

/-- Witness of C15: the user board holds chest `15` at `(0, 0)`, the AI board
chest `15` at `(9, 9)` and chest `14` at `(0, 0)`, `(0, 1)`; the human digs
`(0, 0)`, `(0, 1)` and `(9, 9)`, the AI digs `(5, 5)` twice, and the loop
exits in the third round. -/
theorem digLoop_winner_witness :
    ∃ gf, digLoop (fun _ => (5, 5))
        ⟨emptyBoard.set 0 0 15, ((emptyBoard.set 9 9 15).set 0 0 14).set 0 1 14,
          zeroCounters, zeroCounters⟩
        [(0, 0), (0, 1), (9, 9)] 0 = some gf ∧
      announce gf = Winner.User ∧ gameEnd gf.aiBoard = true ∧ gameEnd gf.userBoard = false := by
  cases hl : digLoop (fun _ => (5, 5))
      ⟨emptyBoard.set 0 0 15, ((emptyBoard.set 9 9 15).set 0 0 14).set 0 1 14,
        zeroCounters, zeroCounters⟩
      [(0, 0), (0, 1), (9, 9)] 0 with
  | none =>
    have hsome : (digLoop (fun _ => (5, 5))
      ⟨emptyBoard.set 0 0 15, ((emptyBoard.set 9 9 15).set 0 0 14).set 0 1 14,
        zeroCounters, zeroCounters⟩
      [(0, 0), (0, 1), (9, 9)] 0).isSome = true := by decide
    rw [hl] at hsome
    exact Bool.noConfusion hsome
  | some gf =>
    obtain ⟨_, hone, _, h3⟩ := digLoop_winner (fun _ => (5, 5)) [(0, 0), (0, 1), (9, 9)] _ gf 0
      (by decide) (by decide) hl
    have hai : gameEnd gf.aiBoard = true := by
      have hv : ((digLoop (fun _ => (5, 5))
        ⟨emptyBoard.set 0 0 15, ((emptyBoard.set 9 9 15).set 0 0 14).set 0 1 14,
          zeroCounters, zeroCounters⟩
        [(0, 0), (0, 1), (9, 9)] 0).map (fun s => gameEnd s.aiBoard)) = some true := by decide
      rw [hl] at hv
      exact Option.some.inj hv
    refine ⟨gf, rfl, h3.mpr hai, hai, ?_⟩
    rcases hone with ⟨_, h2⟩ | ⟨h1, _⟩
    · rw [hai] at h2
      exact Bool.noConfusion h2
    · exact h1

/-- C16: in a round on valid boards with in-grid targets, the human's dig on
the AI board is followed by exactly one dig of the AI on the user board when
`gameEnd(aiBoard)` is false after the human's dig, and by no dig of the AI,
the user board and the AI counters being left as they were, when the human's
dig has left the AI board fully found. -/
theorem digRound_ai_turn (g : Game) (h a : Int × Int)
    (hva : validBoard g.aiBoard) (hvu : validBoard g.userBoard)
    (hh : inGrid h.1 h.2) (ha : inGrid a.1 a.2) :
    ∃ r1, dig g.aiBoard h.1 h.2 g.userChestsFound = some r1 ∧
      ((gameEnd r1.board = false ∧
          ∃ r2, dig g.userBoard a.1 a.2 g.aiChestsFound = some r2 ∧
            digRound g h a
              = some (⟨r2.board, r1.board, r1.chestsFound, r2.chestsFound⟩, [a])) ∨
        (gameEnd r1.board = true ∧
          digRound g h a
            = some (⟨g.userBoard, r1.board, r1.chestsFound, g.aiChestsFound⟩, []))) := by
  obtain ⟨r1, hd1, _, _⟩ := dig_step g.aiBoard g.userChestsFound h.1 h.2 hva hh
  obtain ⟨r2, hd2, _, _⟩ := dig_step g.userBoard g.aiChestsFound a.1 a.2 hvu ha
  refine ⟨r1, hd1, ?_⟩
  cases he : gameEnd r1.board with
  | false =>
    left
    refine ⟨rfl, r2, hd2, ?_⟩
    simp only [digRound, hd1, he, Bool.not_false, if_true, hd2]
  | true =>
    right
    refine ⟨rfl, ?_⟩
    simp only [digRound, hd1, he, Bool.not_true, Bool.false_eq_true, if_false]

/-- Witness of C16: the AI board holds chest `15` at `(9, 9)` and chest `14`
at `(0, 0)`, `(0, 1)`; the human digs `(9, 9)`, the AI digs `(3, 3)`. -/
theorem digRound_ai_turn_witness :
    ∃ r1, dig ((emptyBoard.set 9 9 15).set 0 0 14 |>.set 0 1 14) 9 9 zeroCounters = some r1 ∧
      gameEnd r1.board = false ∧
      ∃ r2, dig (emptyBoard.set 0 0 15) 3 3 zeroCounters = some r2 ∧
        digRound ⟨emptyBoard.set 0 0 15, (emptyBoard.set 9 9 15).set 0 0 14 |>.set 0 1 14,
            zeroCounters, zeroCounters⟩ (9, 9) (3, 3)
          = some (⟨r2.board, r1.board, r1.chestsFound, r2.chestsFound⟩, [(3, 3)]) := by
  obtain ⟨r1, h1, hcase⟩ := digRound_ai_turn
    ⟨emptyBoard.set 0 0 15, (emptyBoard.set 9 9 15).set 0 0 14 |>.set 0 1 14,
      zeroCounters, zeroCounters⟩ (9, 9) (3, 3)
    (validBoard_set (validBoard_set (validBoard_set (fun _ _ => Or.inl rfl) _ _ (by decide))
      _ _ (by decide)) _ _ (by decide))
    (validBoard_set (fun _ _ => Or.inl rfl) _ _ (by decide)) (by decide) (by decide)
  have hnot : gameEnd r1.board = false := by
    have hv : (dig ((emptyBoard.set 9 9 15).set 0 0 14 |>.set 0 1 14) 9 9 zeroCounters).map
        (fun r => gameEnd r.board) = some false := by decide
    rw [show dig ((emptyBoard.set 9 9 15).set 0 0 14 |>.set 0 1 14) 9 9 zeroCounters = some r1
      from h1] at hv
    exact Option.some.inj hv
  rcases hcase with ⟨_, r2, h2, h3⟩ | ⟨he, _⟩
  · exact ⟨r1, h1, hnot, r2, h2, h3⟩
  · rw [hnot] at he
    exact Bool.noConfusion he

/-- C17 fails: there is no state, human target and AI target for which the
round leaves the AI board fully found and the AI has dug in that round; and
there is no state with the AI board fully found from which the dig loop does
anything but exit with the state as it is, so no later round gives the AI a
dig either. -/
theorem no_ai_dig_after_ai_board_found :
    (¬ ∃ (g g1 : Game) (h a : Int × Int) (dug : List (Int × Int)),
      digRound g h a = some (g1, dug) ∧ gameEnd g1.aiBoard = true ∧ dug ≠ []) ∧
    (¬ ∃ (g : Game) (ai : Nat → Int × Int) (hs : List (Int × Int)) (k : Nat),
      gameEnd g.aiBoard = true ∧ digLoop ai g hs k ≠ some g) := by
  constructor
  · rintro ⟨g, g1, h, a, dug, hr, hend, hdug⟩
    obtain ⟨r1, _, eb, _, hcase⟩ := digRound_spec g g1 h a dug hr
    rcases hcase with ⟨_, e, _, _⟩ | ⟨he, _, _⟩
    · exact hdug e
    · rw [eb, he] at hend
      exact Bool.noConfusion hend
  · rintro ⟨g, ai, hs, k, hend, hne⟩
    exact hne (digLoop_ended ai g hs k (Or.inr hend))

/-- C17 as amended: in every round in which the human's dig leaves the AI
board fully found, the AI performs no dig: the guard `if (!gameEnd(aiBoard))`
skips it, the user board and the AI counters are as before the round, and
the loop, entered again with the state the round leaves, exits at its test
with that state, whatever targets are still to come: no dig follows. -/
theorem digRound_skips_ai_when_found (g g1 : Game) (h a : Int × Int)
    (dug : List (Int × Int)) (hr : digRound g h a = some (g1, dug))
    (hend : gameEnd g1.aiBoard = true) :
    dug = [] ∧ g1.userBoard = g.userBoard ∧ g1.aiChestsFound = g.aiChestsFound ∧
      ∀ (ai : Nat → Int × Int) (hs : List (Int × Int)) (k : Nat),
        digLoop ai g1 hs k = some g1 := by
  obtain ⟨r1, _, eb, _, hcase⟩ := digRound_spec g g1 h a dug hr
  rcases hcase with ⟨_, e, eu, ec⟩ | ⟨he, _, _⟩
  · exact ⟨e, eu, ec, fun ai hs k => digLoop_ended ai g1 hs k (Or.inr hend)⟩
  · rw [eb, he] at hend
    exact Bool.noConfusion hend

/-- Witness of the amended C17: the AI board holds only chest `15` at
`(9, 9)` and the human digs it. -/
theorem digRound_skips_ai_when_found_witness :
    ∃ g1 dug, digRound
        ⟨emptyBoard.set 0 0 15, emptyBoard.set 9 9 15, zeroCounters, zeroCounters⟩
        (9, 9) (0, 0) = some (g1, dug) ∧
      dug = [] ∧ g1.userBoard = emptyBoard.set 0 0 15 ∧ g1.aiChestsFound = zeroCounters ∧
      digLoop (fun _ => (0, 0)) g1 [(3, 3)] 0 = some g1 := by
  cases hr : digRound
      ⟨emptyBoard.set 0 0 15, emptyBoard.set 9 9 15, zeroCounters, zeroCounters⟩
      (9, 9) (0, 0) with
  | none =>
    have hsome : (digRound
      ⟨emptyBoard.set 0 0 15, emptyBoard.set 9 9 15, zeroCounters, zeroCounters⟩
      (9, 9) (0, 0)).isSome = true := by decide
    rw [hr] at hsome
    exact Bool.noConfusion hsome
  | some res =>
    obtain ⟨g1, dug⟩ := res
    have hend : gameEnd g1.aiBoard = true := by
      have hv : (digRound
        ⟨emptyBoard.set 0 0 15, emptyBoard.set 9 9 15, zeroCounters, zeroCounters⟩
        (9, 9) (0, 0)).map (fun s => gameEnd s.1.aiBoard) = some true := by decide
      rw [hr] at hv
      exact Option.some.inj hv
    obtain ⟨h1, h2, h3, h4⟩ := digRound_skips_ai_when_found _ g1 (9, 9) (0, 0) dug hr hend
    exact ⟨g1, dug, rfl, h1, h2, h3, h4 (fun _ => (0, 0)) [(3, 3)] 0⟩

/-! ## The two views: claims C18 and C19 -/

/-- The inner rendering loop over cells of row `i` of the grid, when the body
prints exactly the glyph `gc v` for every cell value `v` of that row. -/
theorem renderRow_eq (glyph : Int → List Char) (gc : Int → Char) (b : Board) (i : Nat)
    (hi : i < 10)
    (hg : ∀ j : Fin kcols, glyph (b (rowIdx (i : Int)) j) = [gc (b (rowIdx (i : Int)) j)]) :
    ∀ (k j : Nat), j + k ≤ 10 →
      renderRow glyph b i j k
        = some ((List.range' j k).map
            (fun c : Nat => gc (b (rowIdx (i : Int)) (colIdx (c : Int))))) := by
  intro k
  induction k with
  | zero => intro j _; rfl
  | succ k ih =>
    intro j hj
    have hgrid : inGrid (i : Int) (j : Int) := inGrid_iff.mpr (by omega)
    have hrest := ih (j + 1) (by omega)
    have hcell := cellAt_of_inGrid b hgrid
    have hl : List.range' j (k + 1) = j :: List.range' (j + 1) k := List.range'_succ j k 1
    rw [hl, List.map_cons]
    have hu : renderRow glyph b i j (k + 1) =
      (match cellAt b (i : Int) (j : Int) with
      | none => none
      | some v =>
        match renderRow glyph b i (j + 1) k with
        | none => none
        | some rest => some (glyph v ++ rest)) := rfl
    rw [hu, hcell]
    simp only []
    rw [hrest]
    simp only []
    rw [hg]
    rfl

/-- The outer rendering loop over rows of the grid. -/
theorem renderRows_eq (glyph : Int → List Char) (gc : Int → Char) (b : Board)
    (hg : ∀ (i : Fin krows) (j : Fin kcols), glyph (b i j) = [gc (b i j)]) :
    ∀ (k i : Nat), i + k ≤ 10 →
      renderRows glyph b 10 i k
        = some ((List.range' i k).map (fun r : Nat =>
            (List.range' 0 10).map
              (fun c : Nat => gc (b (rowIdx (r : Int)) (colIdx (c : Int)))))) := by
  intro k
  induction k with
  | zero => intro i _; rfl
  | succ k ih =>
    intro i hi
    have hline := renderRow_eq glyph gc b i (by omega) (fun j => hg _ j) 10 0 (by omega)
    have hrest := ih (i + 1) (by omega)
    have hl : List.range' i (k + 1) = i :: List.range' (i + 1) k := List.range'_succ i k 1
    rw [hl, List.map_cons]
    have hu : renderRows glyph b 10 i (k + 1) =
      (match renderRow glyph b i 0 10 with
      | none => none
      | some line =>
        match renderRows glyph b 10 (i + 1) k with
        | none => none
        | some rest => some (line :: rest)) := rfl
    rw [hu, hline]
    simp only []
    rw [hrest]

/-- A rendering of the whole board with a body that prints one glyph per cell
is the glyph grid of the board. -/
theorem renderRows_grid (glyph : Int → List Char) (gc : Int → Char) (b : Board)
    (hg : ∀ (i : Fin krows) (j : Fin kcols), glyph (b i j) = [gc (b i j)]) :
    renderRows glyph b 10 0 10 = some (glyphGrid gc b) := by
  rw [renderRows_eq glyph gc b hg 10 0 (by omega)]
  rfl

theorem showGlyph_eq (v : Int) : showGlyph v = [specFogGlyph v] := by
  unfold showGlyph specFogGlyph
  by_cases h0 : v = 0
  · subst h0; rfl
  · by_cases h1 : v = -1
    · subst h1; rfl
    · by_cases h2 : v < 0
      · have h3 : v < -1 := by omega
        simp only [h0, h1, h2, h3, if_false, if_true]
      · have h3 : ¬ v < -1 := by omega
        simp only [h0, h1, h2, h3, if_false]

theorem revealGlyph_eq (v : Int) (hv : validCell v) : revealGlyph v = [specRevealGlyph v] := by
  rcases hv with h | h | ⟨lo, hi⟩ | ⟨lo, hi⟩
  · subst h; rfl
  · subst h; rfl
  · interval_cases v <;> rfl
  · interval_cases v <;> rfl

theorem cellOfGlyph_spec (v : Int) (hv : validCell v) : cellOfGlyph (specRevealGlyph v) = v := by
  rcases hv with h | h | ⟨lo, hi⟩ | ⟨lo, hi⟩
  · subst h; decide
  · subst h; decide
  · interval_cases v <;> decide
  · interval_cases v <;> decide

/-- Two boards with the same glyph grid have, cell by cell, the same glyph. -/
theorem glyphGrid_inj (gc : Int → Char) (b1 b2 : Board)
    (h : glyphGrid gc b1 = glyphGrid gc b2) : ∀ i j, gc (b1 i j) = gc (b2 i j) := by
  intro i j
  unfold glyphGrid at h
  have hrow := (List.map_inj_left.mp h) i (List.mem_finRange i)
  exact (List.map_inj_left.mp hrow) j (List.mem_finRange j)

/-- C18: the fog view `show(board, krows, kcols)` prints, cell by cell in
row-major order, `X` for `-1`, `@` for a value below `-1` and `-` otherwise;
so two boards that agree on every dug (negative) cell get the same output,
wherever undug chests lie on them. -/
theorem show_hides_undug_chests (b1 b2 : Board)
    (h : ∀ i j, (b1 i j < 0 ∨ b2 i j < 0) → b1 i j = b2 i j) :
    showBoard b1 krows kcols = some (glyphGrid specFogGlyph b1) ∧
      showBoard b2 krows kcols = showBoard b1 krows kcols := by
  have e1 : showBoard b1 krows kcols = some (glyphGrid specFogGlyph b1) :=
    renderRows_grid showGlyph specFogGlyph b1 (fun _ _ => showGlyph_eq _)
  have e2 : showBoard b2 krows kcols = some (glyphGrid specFogGlyph b2) :=
    renderRows_grid showGlyph specFogGlyph b2 (fun _ _ => showGlyph_eq _)
  refine ⟨e1, ?_⟩
  rw [e1, e2]
  congr 1
  unfold glyphGrid
  apply List.map_congr_left
  intro i _
  apply List.map_congr_left
  intro j _
  by_cases hn : b1 i j < 0 ∨ b2 i j < 0
  · rw [h i j hn]
  · push_neg at hn
    obtain ⟨n1, n2⟩ := hn
    have a1 : ¬ b1 i j = -1 := by omega
    have a2 : ¬ b1 i j < -1 := by omega
    have a3 : ¬ b2 i j = -1 := by omega
    have a4 : ¬ b2 i j < -1 := by omega
    simp only [specFogGlyph, a1, a2, a3, a4, if_false]

/-- Witness of C18: the empty board and the empty board with an undug chest
cell `11` at `(0, 0)`. -/
theorem show_hides_undug_chests_witness :
    showBoard emptyBoard krows kcols = showBoard (emptyBoard.set 0 0 11) krows kcols :=
  (show_hides_undug_chests (emptyBoard.set 0 0 11) emptyBoard (by decide)).2

/-- C19: for a board with valid cell values, `reveal(board, krows, kcols)`
prints one glyph per cell in row-major order, the glyph of the table `-` for
`0`, `X` for `-1`, `a..e` for `11..15`, `A..E` for `-11..-15`; every cell is
recovered from its glyph, so two valid boards with the same full-reveal
rendering are equal. -/
theorem reveal_glyphs (b : Board) (hv : validBoard b) :
    reveal b krows kcols = some (glyphGrid specRevealGlyph b) ∧
      (∀ i j, cellOfGlyph (specRevealGlyph (b i j)) = b i j) ∧
      ∀ b2 : Board, validBoard b2 → reveal b2 krows kcols = reveal b krows kcols → b2 = b := by
  have e1 : reveal b krows kcols = some (glyphGrid specRevealGlyph b) :=
    renderRows_grid revealGlyph specRevealGlyph b (fun i j => revealGlyph_eq _ (hv i j))
  refine ⟨e1, fun i j => cellOfGlyph_spec _ (hv i j), ?_⟩
  intro b2 hv2 heq
  have e2 : reveal b2 krows kcols = some (glyphGrid specRevealGlyph b2) :=
    renderRows_grid revealGlyph specRevealGlyph b2 (fun i j => revealGlyph_eq _ (hv2 i j))
  rw [e1, e2] at heq
  have hcells := glyphGrid_inj specRevealGlyph b2 b (Option.some.inj heq)
  funext i j
  rw [← cellOfGlyph_spec _ (hv2 i j), hcells i j, cellOfGlyph_spec _ (hv i j)]

/-- Witness of C19: the empty board, rendered as ten rows of ten `-`. -/
theorem reveal_glyphs_witness :
    reveal emptyBoard krows kcols = some (glyphGrid specRevealGlyph emptyBoard) :=
  (reveal_glyphs emptyBoard (fun _ _ => Or.inl rfl)).1

/-! ## Counters and dug cells: claim C20 -/

/-- An accepted placement of a chest type in `11..15` keeps a valid board
valid. -/
theorem placeChest_true_valid (b b1 : Board) (row col x o : Int)
    (hx : 11 ≤ x ∧ x ≤ 15) (ho : o = 0 ∨ o = 1) (hv : validBoard b)
    (h : placeChest b row col x o = some (true, b1)) : validBoard b1 := by
  by_cases hg : inGrid row col
  · obtain ⟨_, q1, q2, _, _⟩ := placeChest_true_spec b b1 row col x o hx ho hg h
    intro i j
    by_cases hs : inSpan row col x o i j
    · have := q1 i j hs
      rw [cellAt_cast] at this
      rw [Option.some.inj this]
      exact Or.inr (Or.inr (Or.inl hx))
    · have := q2 i j hs
      rw [cellAt_cast, cellAt_cast] at this
      rw [Option.some.inj this]
      exact hv i j
  · rw [placeChest_true_outside b b1 row col x o hx ho hg h]
    exact hv

/-- One well-formed call on a valid board whose counters match the dug cells:
the call is defined, the board stays valid, the counters still match, and no
counter has decreased. -/
theorem applyOp_inv (b : Board) (cf : Counters) (op : Op)
    (hv : validBoard b) (hm : countersMatch b cf) (hop : op.wellFormed) :
    ∃ b1 cf1, applyOp b cf op = some (b1, cf1) ∧ validBoard b1 ∧ countersMatch b1 cf1 ∧
      ∀ i : Fin 5, cf i ≤ cf1 i := by
  cases op with
  | place offsetRow offsetCol x rowOrCol =>
    obtain ⟨hg, hx1, hx2, ho⟩ := hop
    rcases placeChest_all_or_nothing b offsetRow offsetCol x rowOrCol hg ho (by omega) with
      ⟨b1, hp, _⟩ | hp
    · refine ⟨b1, cf, by simp only [applyOp, hp], ?_, ?_, fun i => le_refl _⟩
      · exact placeChest_true_valid b b1 _ _ _ _ ⟨hx1, hx2⟩ ho hv hp
      · obtain ⟨_, _, _, _, q4⟩ :=
          placeChest_true_spec b b1 _ _ _ _ ⟨hx1, hx2⟩ ho hg hp
        intro t ht
        rw [hm t ht, q4 (-t) (by omega) (by omega)]
    · exact ⟨b, cf, by simp only [applyOp, hp], hv, hm, fun i => le_refl _⟩
  | dig targetRow targetCol =>
    obtain ⟨res, hd, hv1, hstep⟩ := dig_step b cf targetRow targetCol hv hop
    refine ⟨res.board, res.chestsFound, by simp only [applyOp, hd], hv1, ?_, ?_⟩
    · intro t ht
      have m := hm t ht
      rcases hstep t ht with ⟨_, _, s2, s3, _⟩ | ⟨_, _, s2, s3, _⟩
      · rw [s3, s2, m]; push_cast; ring
      · rw [s3, s2, m]
    · intro i
      have hi : (i : Nat) < 5 := i.isLt
      have ht : 11 ≤ (11 + (i : Int)) ∧ (11 + (i : Int)) ≤ 15 := by omega
      have e : (11 + (i : Int)) - 11 = (i : Int) := by ring
      rcases hstep _ ht with ⟨_, _, _, s3, _⟩ | ⟨_, _, _, s3, _⟩
      · rw [e, ctrIdx_cast] at s3
        omega
      · rw [e, ctrIdx_cast] at s3
        omega

/-- A sequence of well-formed calls from a valid board whose counters match
the dug cells: the run is defined, ends in such a state again, and no counter
has decreased. -/
theorem runOps_inv :
    ∀ (ops : List Op) (b : Board) (cf : Counters),
      validBoard b → countersMatch b cf → (∀ op ∈ ops, op.wellFormed) →
      ∃ b1 cf1, runOps b cf ops = some (b1, cf1) ∧ validBoard b1 ∧ countersMatch b1 cf1 ∧
        ∀ i : Fin 5, cf i ≤ cf1 i := by
  intro ops
  induction ops with
  | nil =>
    intro b cf hv hm _
    exact ⟨b, cf, rfl, hv, hm, fun i => le_refl _⟩
  | cons op ops ih =>
    intro b cf hv hm hwf
    obtain ⟨b1, cf1, h1, v1, m1, l1⟩ :=
      applyOp_inv b cf op hv hm (hwf op (List.mem_cons_self op ops))
    obtain ⟨b2, cf2, h2, v2, m2, l2⟩ :=
      ih b1 cf1 v1 m1 (fun o ho => hwf o (List.mem_cons_of_mem op ho))
    refine ⟨b2, cf2, ?_, v2, m2, fun i => le_trans (l1 i) (l2 i)⟩
    simp only [runOps, h1, h2]

theorem runOps_append :
    ∀ (pre post : List Op) (b : Board) (cf : Counters),
      runOps b cf (pre ++ post) = (runOps b cf pre).bind (fun s => runOps s.1 s.2 post) := by
  intro pre
  induction pre with
  | nil => intro post b cf; rfl
  | cons op pre ih =>
    intro post b cf
    simp only [List.cons_append, runOps]
    cases applyOp b cf op with
    | none => rfl
    | some s => exact ih post s.1 s.2

theorem countersMatch_zero : countersMatch emptyBoard zeroCounters := by
  intro t ht
  rw [countCells_emptyBoard (by omega)]
  rfl

/-- C20: take any sequence of calls of `placeChest` (chest type `11..15`,
orientation `0` or `1`, in-grid origin) and `dig` (in-grid target) on one
board with its counters, from the empty board and zero counters, split at
any point into `pre` and `post`.  The run is defined; in the state it
reaches `chestsFound[i]` is the number of cells holding `-(11 + i)` for every
`i` in `0..4`, and so it is in the state after `pre`; and no counter is
smaller at the end than it was after `pre`. -/
theorem counters_count_dug_cells (pre post : List Op)
    (hwf : ∀ op ∈ pre ++ post, op.wellFormed) :
    ∃ b1 cf1 b2 cf2,
      runOps emptyBoard zeroCounters pre = some (b1, cf1) ∧
      runOps emptyBoard zeroCounters (pre ++ post) = some (b2, cf2) ∧
      (∀ i : Fin 5, cf1 i = (countCells b1 (-(11 + (i : Int))) : Int)) ∧
      (∀ i : Fin 5, cf2 i = (countCells b2 (-(11 + (i : Int))) : Int)) ∧
      ∀ i : Fin 5, cf1 i ≤ cf2 i := by
  obtain ⟨b1, cf1, h1, v1, m1, _⟩ :=
    runOps_inv pre emptyBoard zeroCounters (fun _ _ => Or.inl rfl) countersMatch_zero
      (fun op h => hwf op (List.mem_append_left _ h))
  obtain ⟨b2, cf2, h2, _, m2, l2⟩ :=
    runOps_inv post b1 cf1 v1 m1 (fun op h => hwf op (List.mem_append_right _ h))
  have hfin : ∀ (b : Board) (cf : Counters), countersMatch b cf →
      ∀ i : Fin 5, cf i = (countCells b (-(11 + (i : Int))) : Int) := by
    intro b cf hm i
    have hi : (i : Nat) < 5 := i.isLt
    have m := hm (11 + (i : Int)) (by omega)
    have e : (11 + (i : Int)) - 11 = (i : Int) := by ring
    rw [e, ctrIdx_cast] at m
    exact m
  refine ⟨b1, cf1, b2, cf2, h1, ?_, hfin b1 cf1 m1, hfin b2 cf2 m2, l2⟩
  rw [runOps_append, h1]
  exact h2

/-- Witness of C20: chest `15` placed at `(9, 9)` and dug, then chest `14`
placed at `(0, 0)` and its first cell dug twice. -/
theorem counters_count_dug_cells_witness :
    ∃ b1 cf1 b2 cf2,
      runOps emptyBoard zeroCounters [Op.place 9 9 15 0, Op.dig 9 9] = some (b1, cf1) ∧
      runOps emptyBoard zeroCounters
        ([Op.place 9 9 15 0, Op.dig 9 9] ++ [Op.place 0 0 14 0, Op.dig 0 0, Op.dig 0 0])
          = some (b2, cf2) ∧
      (∀ i : Fin 5, cf1 i = (countCells b1 (-(11 + (i : Int))) : Int)) ∧
      (∀ i : Fin 5, cf2 i = (countCells b2 (-(11 + (i : Int))) : Int)) ∧
      ∀ i : Fin 5, cf1 i ≤ cf2 i :=
  counters_count_dug_cells [Op.place 9 9 15 0, Op.dig 9 9]
    [Op.place 0 0 14 0, Op.dig 0 0, Op.dig 0 0]
    (by
      intro op hop
      simp only [List.cons_append, List.nil_append, List.mem_cons, List.mem_singleton,
        List.not_mem_nil, or_false] at hop
      rcases hop with h | h | h | h | h <;> subst h
      · exact ⟨by decide, by decide, by decide, Or.inl rfl⟩
      · exact (by decide : inGrid 9 9)
      · exact ⟨by decide, by decide, by decide, Or.inl rfl⟩
      · exact (by decide : inGrid 0 0)
      · exact (by decide : inGrid 0 0))

/-! ## The cell encoding: claim C21 -/

/-- One well-formed call on a valid board moves every cell along `cellStep`. -/
theorem applyOp_cells (b b1 : Board) (cf cf1 : Counters) (op : Op)
    (hv : validBoard b) (hop : op.wellFormed) (h : applyOp b cf op = some (b1, cf1)) :
    ∀ i j, cellStep (b i j) (b1 i j) := by
  cases op with
  | place offsetRow offsetCol x rowOrCol =>
    obtain ⟨hg, hx1, hx2, ho⟩ := hop
    rcases placeChest_all_or_nothing b offsetRow offsetCol x rowOrCol hg ho (by omega) with
      ⟨b2, hp, _⟩ | hp
    · simp only [applyOp, hp] at h
      have e : b2 = b1 := congrArg Prod.fst (Option.some.inj h)
      subst e
      obtain ⟨q0, q1, q2, _, _⟩ :=
        placeChest_true_spec b b2 _ _ _ _ ⟨hx1, hx2⟩ ho hg hp
      intro i j
      by_cases hs : inSpan offsetRow offsetCol x rowOrCol i j
      · have z := q0 i j hs
        have w := q1 i j hs
        rw [cellAt_cast] at z w
        rw [Option.some.inj z, Option.some.inj w]
        exact Or.inr (Or.inl ⟨rfl, hx1, hx2⟩)
      · have w := q2 i j hs
        rw [cellAt_cast, cellAt_cast] at w
        exact Or.inl (Option.some.inj w)
    · simp only [applyOp, hp] at h
      have e : b = b1 := congrArg Prod.fst (Option.some.inj h)
      subst e
      intro i j
      exact Or.inl rfl
  | dig targetRow targetCol =>
    have hg : inGrid targetRow targetCol := hop
    have hc := cellAt_of_inGrid b hg
    have hcell := hv (rowIdx targetRow) (colIdx targetCol)
    have hset : ∀ (w : Int) (i : Fin krows) (j : Fin kcols),
        cellStep (b (rowIdx targetRow) (colIdx targetCol)) w →
        cellStep (b i j) ((b.set (rowIdx targetRow) (colIdx targetCol) w) i j) := by
      intro w i j hw
      simp only [Board.set]
      split
      · rename_i hij
        rw [hij.1, hij.2]
        exact hw
      · exact Or.inl rfl
    rcases hcell with h0 | h0 | h0 | h0
    · rw [h0] at hc
      rw [applyOp, dig_empty b cf hc] at h
      have e := congrArg Prod.fst (Option.some.inj h)
      simp only at e
      subst e
      intro i j
      exact hset (-1) i j (Or.inr (Or.inr (Or.inl ⟨h0, rfl⟩)))
    · rw [h0] at hc
      rw [applyOp, dig_negative b cf hc (by decide)] at h
      have e := congrArg Prod.fst (Option.some.inj h)
      simp only at e
      subst e
      intro i j
      exact Or.inl rfl
    · rw [applyOp, dig_chest b cf hc h0] at h
      have e := congrArg Prod.fst (Option.some.inj h)
      simp only at e
      subst e
      intro i j
      exact hset _ i j (Or.inr (Or.inr (Or.inr ⟨h0.1, h0.2, rfl⟩)))
    · rw [applyOp, dig_negative b cf hc (by omega)] at h
      have e := congrArg Prod.fst (Option.some.inj h)
      simp only at e
      subst e
      intro i j
      exact Or.inl rfl

/-- A step along `cellStep` leaves a negative value as it is. -/
theorem cellStep_negative {v w : Int} (h : cellStep v w) (hv : v < 0) : w = v := by
  rcases h with h | ⟨h, _⟩ | ⟨h, _⟩ | ⟨h, _⟩
  · exact h
  · omega
  · omega
  · omega

/-- Over a sequence of well-formed calls from a valid board whose counters
match the dug cells, a cell that holds a negative value keeps it. -/
theorem runOps_negative_fixed :
    ∀ (ops : List Op) (b b1 : Board) (cf cf1 : Counters),
      validBoard b → countersMatch b cf → (∀ op ∈ ops, op.wellFormed) →
      runOps b cf ops = some (b1, cf1) →
      ∀ i j, b i j < 0 → b1 i j = b i j := by
  intro ops
  induction ops with
  | nil =>
    intro b b1 cf cf1 _ _ _ h i j _
    simp only [runOps] at h
    have e : b = b1 := congrArg Prod.fst (Option.some.inj h)
    rw [e]
  | cons op ops ih =>
    intro b b1 cf cf1 hv hm hwf h i j hneg
    have hop := hwf op (List.mem_cons_self op ops)
    obtain ⟨b2, cf2, h2, v2, m2, _⟩ := applyOp_inv b cf op hv hm hop
    simp only [runOps, h2] at h
    have hstep := applyOp_cells b b2 cf cf2 op hv hop h2 i j
    have e2 : b2 i j = b i j := cellStep_negative hstep hneg
    have := ih b2 b1 cf2 cf1 v2 m2 (fun o ho => hwf o (List.mem_cons_of_mem op ho)) h i j
      (by rw [e2]; exact hneg)
    rw [this, e2]

/-- C21: take any sequence of calls of `placeChest` (chest type `11..15`,
orientation `0` or `1`, in-grid origin) and `dig` (in-grid target) from the
all-zero board, split as the calls `pre`, one call `op` and the calls `post`.
All calls are defined.  The board before `op`, the board after `op` and the
final board hold only values of `0`, `-1`, `11..15` and `-15..-11`; the call
`op` changes a cell only along `0 -> t`, `0 -> -1` or `t -> -t` with `t` in
`11..15`; and a cell that is negative before `op` holds the same value at the
end. -/
theorem cell_encoding_invariant (pre : List Op) (op : Op) (post : List Op)
    (hwf : ∀ o ∈ pre ++ op :: post, o.wellFormed) :
    ∃ b1 cf1 b2 cf2 b3 cf3,
      runOps emptyBoard zeroCounters pre = some (b1, cf1) ∧
      applyOp b1 cf1 op = some (b2, cf2) ∧
      runOps b2 cf2 post = some (b3, cf3) ∧
      runOps emptyBoard zeroCounters (pre ++ op :: post) = some (b3, cf3) ∧
      validBoard b1 ∧ validBoard b2 ∧ validBoard b3 ∧
      (∀ i j, cellStep (b1 i j) (b2 i j)) ∧
      ∀ i j, b1 i j < 0 → b3 i j = b1 i j := by
  have hop : op.wellFormed :=
    hwf op (List.mem_append_right _ (List.mem_cons_self op post))
  have hpost : ∀ o ∈ post, o.wellFormed :=
    fun o ho => hwf o (List.mem_append_right _ (List.mem_cons_of_mem op ho))
  obtain ⟨b1, cf1, h1, v1, m1, _⟩ :=
    runOps_inv pre emptyBoard zeroCounters (fun _ _ => Or.inl rfl) countersMatch_zero
      (fun o ho => hwf o (List.mem_append_left _ ho))
  obtain ⟨b2, cf2, h2, v2, m2, _⟩ := applyOp_inv b1 cf1 op v1 m1 hop
  obtain ⟨b3, cf3, h3, v3, _, _⟩ := runOps_inv post b2 cf2 v2 m2 hpost
  have hstep := applyOp_cells b1 b2 cf1 cf2 op v1 hop h2
  refine ⟨b1, cf1, b2, cf2, b3, cf3, h1, h2, h3, ?_, v1, v2, v3, hstep, ?_⟩
  · rw [runOps_append, h1]
    simp only [Option.bind, runOps, h2, h3]
  · intro i j hneg
    have e2 : b2 i j = b1 i j := cellStep_negative (hstep i j) hneg
    have e3 := runOps_negative_fixed post b2 b3 cf2 cf3 v2 m2 hpost h3 i j
      (by rw [e2]; exact hneg)
    rw [e3, e2]

/-- Witness of C21: chest `15` placed at `(9, 9)` and dug, then cell `(0, 0)`
dug, then `(9, 9)` dug again and chest `14` asked for at `(9, 8)`. -/
theorem cell_encoding_invariant_witness :
    ∃ b1 cf1 b2 cf2 b3 cf3,
      runOps emptyBoard zeroCounters [Op.place 9 9 15 0, Op.dig 9 9] = some (b1, cf1) ∧
      applyOp b1 cf1 (Op.dig 0 0) = some (b2, cf2) ∧
      runOps b2 cf2 [Op.dig 9 9, Op.place 9 8 14 0] = some (b3, cf3) ∧
      validBoard b3 ∧
      (∀ i j, cellStep (b1 i j) (b2 i j)) ∧
      ∀ i j, b1 i j < 0 → b3 i j = b1 i j := by
  obtain ⟨b1, cf1, b2, cf2, b3, cf3, h1, h2, h3, _, _, _, v3, hs, hn⟩ :=
    cell_encoding_invariant [Op.place 9 9 15 0, Op.dig 9 9] (Op.dig 0 0)
      [Op.dig 9 9, Op.place 9 8 14 0]
      (by
        intro o ho
        simp only [List.cons_append, List.nil_append, List.mem_cons, List.mem_singleton,
          List.not_mem_nil, or_false] at ho
        rcases ho with h | h | h | h | h <;> subst h
        · exact ⟨by decide, by decide, by decide, Or.inl rfl⟩
        · exact (by decide : inGrid 9 9)
        · exact (by decide : inGrid 0 0)
        · exact (by decide : inGrid 9 9)
        · exact ⟨by decide, by decide, by decide, Or.inl rfl⟩)
  exact ⟨b1, cf1, b2, cf2, b3, cf3, h1, h2, h3, v3, hs, hn⟩

/-! ## The dig input check: claim C22 -/

/-- The pairs the input check of the dig loop lets through are those with
`0 <= digRow <= 10` and `0 <= digCol <= 10`, read with `scanf` returning `2`. -/
theorem digInputRefused_false_iff (status digRow digCol : Int) :
    digInputRefused status digRow digCol = false ↔
      status = 2 ∧ 0 ≤ digRow ∧ digRow ≤ 10 ∧ 0 ≤ digCol ∧ digCol ≤ 10 := by
  simp only [digInputRefused, krows, kcols, Nat.cast_ofNat, Bool.or_eq_false_iff,
    bne_eq_false_iff_eq, decide_eq_false_iff_not, not_lt]
  constructor
  · rintro ⟨⟨⟨⟨h1, h2⟩, h3⟩, h4⟩, h5⟩
    exact ⟨h1, h2, by omega, h4, by omega⟩
  · rintro ⟨h1, h2, h3, h4, h5⟩
    exact ⟨⟨⟨⟨h1, h2⟩, by omega⟩, h4⟩, by omega⟩

/-- C22, evaluated at the pair `(10, 0)`: the input check of the dig loop
lets it through (`digRow > krows` is false for `digRow = 10`), the pair is not
inside the grid, and the call of `dig` it is passed to reads `board[10][0]`
outside the board.  The pair `(0, 10)` is let through as well. -/
theorem digInput_accepts_row_ten :
    digInputRefused 2 10 0 = false ∧ ¬ inGrid 10 0 ∧
      dig emptyBoard 10 0 zeroCounters = none ∧
      digInputRefused 2 0 10 = false ∧ ¬ inGrid 0 10 := by
  refine ⟨by decide, by decide, ?_, by decide, by decide⟩
  exact dig_outside emptyBoard zeroCounters (by decide)

end TreasureHunt
